import Mathlib

/-!
# Mayo: the XDE document item (`src/xde_document_item.cpp`)

A shallow embedding of `Mayo::XdeDocumentItem`: the assembly-tree builder, the
absolute location of a tree node, the validation properties of a label, the
colour lookup, the property list of a shape and the display name of a label.

OpenCASCADE (labels, the shape tool, the colour tool, locations, colours) and Qt
are external libraries: a label is an identifier, the tools are records of query
functions, and the value types they carry are type parameters.
-/

namespace Mayo

/-! ## Labels and the tree container -/

/-- A `TDF_Label`, identified by a number. -/
abbrev TDF_Label := Nat

/-- The null label `TDF_Label()`. -/
def nullLabel : TDF_Label := 0

/-- The identifier of a node of the assembly tree; `0` is the root, above all nodes. -/
abbrev AssemblyNodeId := Nat

/-- Modelled from the spec: one node of `Tree<TDF_Label>` (the container's header is
not among the sources). A node records the id of its parent and the label it carries. -/
structure TreeNode where
  parent : Nat
  data : TDF_Label
deriving DecidableEq, Repr

/-- Modelled from the spec: `Tree<TDF_Label>` (the container's header is not among the
sources). The nodes are kept in the order they were appended; the node at position `i`
has id `i + 1`, and id `0` is the root every top-level node hangs from. -/
structure Tree where
  m_vecNode : List TreeNode
deriving DecidableEq, Repr

namespace Tree

/-- The number of nodes of the tree. -/
def size (t : Tree) : Nat := t.m_vecNode.length

/-- Modelled from the spec: `Tree::clear()` of the missing container header; it removes
every node. -/
def clear (_t : Tree) : Tree := ⟨[]⟩

/-- Modelled from the spec: `Tree::appendChild(parentId, data)` of the missing container
header; it adds a node as the last child of `parentId` and returns the id of the new
node together with the new tree. -/
def appendChild (t : Tree) (parentId : AssemblyNodeId) (data : TDF_Label) :
    AssemblyNodeId × Tree :=
  (t.m_vecNode.length + 1, ⟨t.m_vecNode ++ [⟨parentId, data⟩]⟩)

/-- The node stored under an id, when the id is one of the tree. -/
def ptrNode (t : Tree) (id : AssemblyNodeId) : Option TreeNode :=
  if id = 0 then none else t.m_vecNode[id - 1]?

/-- Modelled from the spec: `Tree::nodeData(id)` of the missing container header, the
label carried by a node; undefined for an id that is not a node. -/
def nodeData (t : Tree) (id : AssemblyNodeId) : Option TDF_Label :=
  (t.ptrNode id).map TreeNode.data

/-- Modelled from the spec: `Tree::nodeParent(id)` of the missing container header, the
id of the parent of a node; undefined for an id that is not a node. -/
def nodeParent (t : Tree) (id : AssemblyNodeId) : Option AssemblyNodeId :=
  (t.ptrNode id).map TreeNode.parent

/-- The ids of the children of `n`, in the order they were appended. -/
def children (t : Tree) (n : AssemblyNodeId) : List AssemblyNodeId :=
  (List.range t.size).filterMap
    (fun i => if t.nodeParent (i + 1) = some n then some (i + 1) else none)

/-- The labels carried by the children of `n`, in order. -/
def childLabels (t : Tree) (n : AssemblyNodeId) : List TDF_Label :=
  (t.children n).filterMap t.nodeData

end Tree

/-! ## The shape tool -/

/-- The queries of `XCAFDoc_ShapeTool` (and the wrappers of `XdeDocumentItem` that only
forward to it) on a fixed document, as functions of the label. -/
structure ShapeTool where
  topLevelFreeShapes : List TDF_Label
  isShapeAssembly : TDF_Label → Bool
  isShapeSimple : TDF_Label → Bool
  isShapeReference : TDF_Label → Bool
  shapeComponents : TDF_Label → List TDF_Label
  shapeSubs : TDF_Label → List TDF_Label
  shapeReferred : TDF_Label → TDF_Label

/-- The range-for loop `for (child : labels) body(child)` over a tree that the body
updates; the loop fails as soon as one run of the body does. -/
def forEachLabel (body : Tree → TDF_Label → Option Tree) :
    Tree → List TDF_Label → Option Tree
  | t, [] => some t
  | t, child :: rest =>
    match body t child with
    | none => none
    | some t1 => forEachLabel body t1 rest

/-- `XdeDocumentItem::deepBuildAssemblyTree(parentNode, label)`, lines 255-271. The
first argument bounds the depth of the recursion: `none` means the bound was reached
before the call returned. -/
def deepBuildAssemblyTree (sh : ShapeTool) :
    Nat → Tree → AssemblyNodeId → TDF_Label → Option Tree
  | 0, _, _, _ => none
  | fuel + 1, t, parentNode, label =>
    let r := t.appendChild parentNode label
    let node := r.1
    if sh.isShapeAssembly label then
      forEachLabel (fun t1 child => deepBuildAssemblyTree sh fuel t1 node child)
        r.2 (sh.shapeComponents label)
    else if sh.isShapeSimple label then
      forEachLabel (fun t1 child => deepBuildAssemblyTree sh fuel t1 node child)
        r.2 (sh.shapeSubs label)
    else if sh.isShapeReference label then
      deepBuildAssemblyTree sh fuel r.2 node (sh.shapeReferred label)
    else
      some r.2

/-- `XdeDocumentItem::rebuildAssemblyTree()`, lines 89-94. -/
def rebuildAssemblyTree (sh : ShapeTool) (fuel : Nat) (m_asmTree : Tree) : Option Tree :=
  forEachLabel (fun t rootLabel => deepBuildAssemblyTree sh fuel t 0 rootLabel)
    m_asmTree.clear sh.topLevelFreeShapes

/-- The labels the builder descends into below a node carrying `label`: the components
of an assembly, otherwise the sub-shapes of a simple shape, otherwise the referred shape
of a reference, otherwise nothing. -/
def walkedChildren (sh : ShapeTool) (label : TDF_Label) : List TDF_Label :=
  if sh.isShapeAssembly label then sh.shapeComponents label
  else if sh.isShapeSimple label then sh.shapeSubs label
  else if sh.isShapeReference label then [sh.shapeReferred label]
  else []

/-- The labels related to `label` by "is a component of an assembly, a sub-shape of a
simple shape, or the referred shape of a reference", the three kinds side by side. -/
def relatedChildren (sh : ShapeTool) (label : TDF_Label) : List TDF_Label :=
  (if sh.isShapeAssembly label then sh.shapeComponents label else []) ++
  (if sh.isShapeSimple label then sh.shapeSubs label else []) ++
  (if sh.isShapeReference label then [sh.shapeReferred label] else [])

/-- A label hierarchy is acyclic when "is a child of" is well-founded. -/
def Acyclic (kids : TDF_Label → List TDF_Label) : Prop :=
  WellFounded (fun child label => child ∈ kids label)

/-- A path of the hierarchy `kids` starting at `label`, given by the position chosen in
the child list at every step; the empty path stays at `label`. For child lists without
repetition these are the chains of labels starting at `label`. -/
def IsPath (kids : TDF_Label → List TDF_Label) : TDF_Label → List Nat → Prop
  | _, [] => True
  | label, i :: rest => ∃ child, (kids label)[i]? = some child ∧ IsPath kids child rest

/-- The label a path ends at. -/
def pathEnd (kids : TDF_Label → List TDF_Label) : TDF_Label → List Nat → TDF_Label
  | label, [] => label
  | label, i :: rest => pathEnd kids ((kids label).getD i label) rest

/-- With enough recursion depth `deepBuildAssemblyTree(parent, label)` returns, and the
nodes it appends correspond one to one, in order, to the paths of `kids` starting at
`label`: the paths, listed once each, end at the labels the appended nodes carry. -/
def BuildsPaths (sh : ShapeTool) (kids : TDF_Label → List TDF_Label)
    (label : TDF_Label) : Prop :=
  ∃ n : Nat, ∀ fuel, n ≤ fuel →
    ∀ (t : Tree) (parentNode : AssemblyNodeId), ∃ (t1 : Tree) (added : List TreeNode)
      (paths : List (List Nat)),
      deepBuildAssemblyTree sh fuel t parentNode label = some t1 ∧
      t1.m_vecNode = t.m_vecNode ++ added ∧
      paths.Nodup ∧ (∀ p, p ∈ paths ↔ IsPath kids label p) ∧
      added.map TreeNode.data = paths.map (pathEnd kids label)

/-- The label reached by a non-empty path that starts below a node whose children are
the labels `cs`. -/
def forestEnd (kids : TDF_Label → List TDF_Label) (cs : List TDF_Label) :
    List Nat → TDF_Label
  | [] => 0
  | i :: rest => pathEnd kids (cs.getD i 0) rest

/-- The loop over the labels `cs` returns with enough recursion depth, and the nodes it
appends correspond, in order, to the non-empty paths through `cs`. -/
def BuildsForestPaths (sh : ShapeTool) (kids : TDF_Label → List TDF_Label)
    (cs : List TDF_Label) : Prop :=
  ∃ n : Nat, ∀ fuel, n ≤ fuel →
    ∀ (t : Tree) (node : Nat), ∃ (t1 : Tree) (added : List TreeNode)
      (paths : List (List Nat)),
      forEachLabel (fun t0 c => deepBuildAssemblyTree sh fuel t0 node c) t cs = some t1 ∧
      t1.m_vecNode = t.m_vecNode ++ added ∧
      paths.Nodup ∧
      (∀ p, p ∈ paths ↔ ∃ i rest c, p = i :: rest ∧ cs[i]? = some c ∧ IsPath kids c rest) ∧
      added.map TreeNode.data = paths.map (forestEnd kids cs)

/-- Moves a path one position to the right in the child list of its first step. -/
def bumpPath : List Nat → List Nat
  | [] => []
  | i :: rest => (i + 1) :: rest

/-- The labels carried by the nodes of a list whose recorded parent is `n`, in order. -/
def dataOfParent (ns : List TreeNode) (n : Nat) : List TDF_Label :=
  (ns.filter (fun x => decide (x.parent = n))).map TreeNode.data

/-- The shape of a run of nodes appended at position `b` below the node `node` while
walking the labels `cs`: parents are `node` or a node of the run, the nodes hanging
from `node` carry `cs`, and every node of the run has the children its label asks for. -/
def ForestOk (sh : ShapeTool) (node b : Nat) (cs : List TDF_Label)
    (ext : List TreeNode) : Prop :=
  (∀ x ∈ ext, (x.parent = node ∨ b + 1 ≤ x.parent) ∧ x.parent ≤ b + ext.length) ∧
  dataOfParent ext node = cs ∧
  (∀ j x, ext[j]? = some x → dataOfParent ext (b + j + 1) = walkedChildren sh x.data)

/-! ## The absolute location of a node -/

/-- The loop of `XdeDocumentItem::shapeAbsoluteLocation`, lines 212-217, started with
the location `absoluteLoc` at the node `it`. The first argument bounds the number of
runs of the loop body: `none` means the bound was reached (or a node was missing) before
the loop ended. -/
def shapeAbsoluteLocationLoop {Loc : Type} [Mul Loc] (GetLocation : TDF_Label → Loc)
    (m_asmTree : Tree) : Nat → Loc → AssemblyNodeId → Option Loc
  | 0, absoluteLoc, it => if it = 0 then some absoluteLoc else none
  | fuel + 1, absoluteLoc, it =>
    if it = 0 then some absoluteLoc
    else
      match m_asmTree.nodeData it, m_asmTree.nodeParent it with
      | some nodeLabel, some parent =>
        shapeAbsoluteLocationLoop GetLocation m_asmTree fuel
          (GetLocation nodeLabel * absoluteLoc) parent
      | _, _ => none

/-- `XdeDocumentItem::shapeAbsoluteLocation(nodeId)`, lines 208-219. A default
constructed `TopLoc_Location` is the identity `1`, and `*` is the product of
locations. -/
def shapeAbsoluteLocation {Loc : Type} [Mul Loc] [One Loc] (GetLocation : TDF_Label → Loc)
    (m_asmTree : Tree) (fuel : Nat) (nodeId : AssemblyNodeId) : Option Loc :=
  shapeAbsoluteLocationLoop GetLocation m_asmTree fuel 1 nodeId

/-- The shape tool's location of the label stored at a node. -/
def nodeLocation {Loc : Type} [One Loc] (GetLocation : TDF_Label → Loc) (t : Tree)
    (n : AssemblyNodeId) : Loc :=
  match t.nodeData n with
  | some label => GetLocation label
  | none => 1

/-- A chain of parents read downwards from the node `top`: the first node of the chain
is a child of `top`, and every later one is a child of the one before it. -/
def IsParentChain (t : Tree) : AssemblyNodeId → List AssemblyNodeId → Prop
  | _, [] => True
  | top, n :: rest => t.nodeParent n = some top ∧ IsParentChain t n rest

/-! ## Validation properties -/

/-- An attribute of a label, as `validationProperties` tells them apart by their id:
a centroid, an area, a volume, or an attribute of any other kind. -/
inductive TDF_Attribute (Pnt R : Type) where
  | XCAFDoc_Centroid (value : Pnt)
  | XCAFDoc_Area (value : R)
  | XCAFDoc_Volume (value : R)
  | other (id : Nat)
deriving DecidableEq, Repr

namespace TDF_Attribute

/-- The attribute is a centroid. -/
def isCentroid {Pnt R : Type} : TDF_Attribute Pnt R → Bool
  | XCAFDoc_Centroid _ => true
  | _ => false

/-- The attribute is an area. -/
def isArea {Pnt R : Type} : TDF_Attribute Pnt R → Bool
  | XCAFDoc_Area _ => true
  | _ => false

/-- The attribute is a volume. -/
def isVolume {Pnt R : Type} : TDF_Attribute Pnt R → Bool
  | XCAFDoc_Volume _ => true
  | _ => false

end TDF_Attribute

/-- `XdeDocumentItem::ValidationProperties`. -/
@[ext]
structure ValidationProperties (Pnt R : Type) where
  hasCentroid : Bool
  hasArea : Bool
  hasVolume : Bool
  centroid : Pnt
  area : R
  volume : R
deriving DecidableEq, Repr

/-- The unit constants `validationProperties` multiplies by. -/
structure QuantityUnits (R : Type) where
  Quantity_SquaredMillimeter : R
  Quantity_CubicMillimeter : R

/-- The value-initialised `ValidationProperties props = {}`. -/
def ValidationProperties.zero {Pnt R : Type} [Inhabited Pnt] [Zero R] :
    ValidationProperties Pnt R :=
  ⟨false, false, false, default, 0, 0⟩

/-- The `if / else if / else if` on the attribute id in the loop body of
`validationProperties`, lines 228-242. -/
def validationStep {Pnt R : Type} [Mul R] (u : QuantityUnits R)
    (props : ValidationProperties Pnt R) : TDF_Attribute Pnt R → ValidationProperties Pnt R
  | .XCAFDoc_Centroid c => { props with hasCentroid := true, centroid := c }
  | .XCAFDoc_Area a =>
    { props with hasArea := true, area := a * u.Quantity_SquaredMillimeter }
  | .XCAFDoc_Volume v =>
    { props with hasVolume := true, volume := v * u.Quantity_CubicMillimeter }
  | .other _ => props

/-- The loop of `validationProperties`, lines 225-245, over the attributes still to be
visited, with the `break` taken once the three kinds have been found. -/
def validationLoop {Pnt R : Type} [Mul R] (u : QuantityUnits R) :
    ValidationProperties Pnt R → List (TDF_Attribute Pnt R) → ValidationProperties Pnt R
  | props, [] => props
  | props, attr :: rest =>
    let props1 := validationStep u props attr
    if props1.hasCentroid && props1.hasArea && props1.hasVolume then props1
    else validationLoop u props1 rest

/-- `XdeDocumentItem::validationProperties(lbl)`, lines 221-247, as a function of the
sequence of attributes `TDF_AttributeIterator` enumerates on the label. -/
def validationProperties {Pnt R : Type} [Inhabited Pnt] [Zero R] [Mul R]
    (u : QuantityUnits R) (attrs : List (TDF_Attribute Pnt R)) : ValidationProperties Pnt R :=
  validationLoop u ValidationProperties.zero attrs

/-- The same loop without the early exit: every attribute is visited. -/
def validationPropertiesNoBreak {Pnt R : Type} [Inhabited Pnt] [Zero R] [Mul R]
    (u : QuantityUnits R) (attrs : List (TDF_Attribute Pnt R)) : ValidationProperties Pnt R :=
  attrs.foldl (validationStep u) ValidationProperties.zero

/-- The attribute sequence holds at most one attribute of each of the kinds centroid,
area and volume. -/
def AtMostOnePerKind {Pnt R : Type} (attrs : List (TDF_Attribute Pnt R)) : Prop :=
  attrs.countP TDF_Attribute.isCentroid ≤ 1 ∧
  attrs.countP TDF_Attribute.isArea ≤ 1 ∧
  attrs.countP TDF_Attribute.isVolume ≤ 1

/-- What `validationProperties` is to return for the attribute sequence `attrs`:
each flag tells whether an attribute of the kind is in the sequence, a present kind
gives the field its value (the area and the volume times their unit), and the field of
an absent kind keeps its value-initialised content. -/
def Aggregates {Pnt R : Type} [Inhabited Pnt] [Zero R] [Mul R] (u : QuantityUnits R)
    (attrs : List (TDF_Attribute Pnt R)) (r : ValidationProperties Pnt R) : Prop :=
  ((r.hasCentroid = true ↔ ∃ c, TDF_Attribute.XCAFDoc_Centroid c ∈ attrs) ∧
   (r.hasArea = true ↔ ∃ a, TDF_Attribute.XCAFDoc_Area a ∈ attrs) ∧
   (r.hasVolume = true ↔ ∃ v, TDF_Attribute.XCAFDoc_Volume v ∈ attrs)) ∧
  ((∀ c, TDF_Attribute.XCAFDoc_Centroid c ∈ attrs → r.centroid = c) ∧
   (∀ a, TDF_Attribute.XCAFDoc_Area a ∈ attrs →
      r.area = a * u.Quantity_SquaredMillimeter) ∧
   (∀ v, TDF_Attribute.XCAFDoc_Volume v ∈ attrs →
      r.volume = v * u.Quantity_CubicMillimeter)) ∧
  ((r.hasCentroid = false → r.centroid = default) ∧
   (r.hasArea = false → r.area = 0) ∧
   (r.hasVolume = false → r.volume = 0))

/-! ## Colours -/

/-- `XCAFDoc_ColorType`. -/
inductive XCAFDoc_ColorType where
  | XCAFDoc_ColorGen
  | XCAFDoc_ColorSurf
  | XCAFDoc_ColorCurv
deriving DecidableEq, Repr

/-- The queries of `XCAFDoc_ColorTool` on a fixed document. `GetColor` gives the colour
the call writes into its out-parameter when it succeeds, and `none` when it fails, in
which case the out-parameter keeps its value. -/
structure ColorTool (Color : Type) where
  IsSet : TDF_Label → XCAFDoc_ColorType → Bool
  GetColor : TDF_Label → XCAFDoc_ColorType → Option Color

/-- `XdeDocumentItem::hasShapeColor(lbl)`, lines 177-182. -/
def hasShapeColor {Color : Type} (m_colorTool : ColorTool Color) (lbl : TDF_Label) : Bool :=
  m_colorTool.IsSet lbl .XCAFDoc_ColorGen
    || m_colorTool.IsSet lbl .XCAFDoc_ColorSurf
    || m_colorTool.IsSet lbl .XCAFDoc_ColorCurv

/-- `XdeDocumentItem::shapeColor(lbl)`, lines 184-194; `default` is the default
constructed `Quantity_Color`. -/
def shapeColor {Color : Type} [Inhabited Color] (m_colorTool : ColorTool Color)
    (lbl : TDF_Label) : Color :=
  let color : Color := default
  match m_colorTool.GetColor lbl .XCAFDoc_ColorGen with
  | some c => c
  | none =>
    match m_colorTool.GetColor lbl .XCAFDoc_ColorSurf with
    | some c => c
    | none =>
      match m_colorTool.GetColor lbl .XCAFDoc_ColorCurv with
      | some c => c
      | none => color

/-! ## Strings -/

/-- A `QString`. -/
abbrev QString := String

/-- The source text is used as it stands: `tr` with no translation installed. -/
def tr (sourceText : QString) : QString := sourceText

/-- The number of the place marker a digit stands for after `%`: `1` to `9`. -/
def markerOf (d : Char) : Option Nat :=
  if 49 ≤ d.toNat ∧ d.toNat ≤ 57 then some (d.toNat - 48) else none

/-- The place marker (`%1` to `%9`) the text starts with, if it starts with one. -/
def markerAt : List Char → Option Nat
  | c :: d :: _ => if c = '%' then markerOf d else none
  | _ => none

/-- The smaller of two marker numbers, either of which may be missing. -/
def optMin : Option Nat → Option Nat → Option Nat
  | none, b => b
  | a, none => a
  | some a, some b => some (min a b)

/-- The lowest numbered place marker of a text. -/
def lowestMarker : List Char → Option Nat
  | [] => none
  | c :: rest => optMin (markerAt (c :: rest)) (lowestMarker rest)

/-- The text with every occurrence of the place marker `%k` replaced by `a`. -/
def replaceMarker (k : Nat) (a : List Char) : List Char → List Char
  | c :: d :: rest =>
    if c = '%' ∧ markerOf d = some k then a ++ replaceMarker k a rest
    else c :: replaceMarker k a (d :: rest)
  | rest => rest

/-- `QString::arg(a)`: the lowest numbered place marker is replaced by `a`; a text
without place marker is returned as it is. Only the one-digit markers `%1` to `%9` are
modelled, the formats of this file use no other. -/
def QString.arg (fmt a : QString) : QString :=
  match lowestMarker fmt.data with
  | none => fmt
  | some k => ⟨replaceMarker k a.data fmt.data⟩

/-- `QString::arg(int)`: the number is written in decimal. -/
def QString.argInt (fmt : QString) (n : Int) : QString :=
  QString.arg fmt (toString n)

/-- `QStringList::join(sep)`. -/
def QStringList.join (list : List QString) (sep : QString) : QString :=
  sep.intercalate list

/-! ## The document seen by the queries of `XdeDocumentItem` -/

/-- `TopAbs_ShapeEnum`. -/
inductive TopAbs_ShapeEnum where
  | TopAbs_COMPOUND
  | TopAbs_COMPSOLID
  | TopAbs_SOLID
  | TopAbs_SHELL
  | TopAbs_FACE
  | TopAbs_WIRE
  | TopAbs_EDGE
  | TopAbs_VERTEX
  | TopAbs_SHAPE
deriving DecidableEq, Repr

/-- A fixed document as `shapeProperties` and `findLabelName` query it: the shape tool,
the colour tool, and what OpenCASCADE and the helpers `CafUtils`, `StringUtils` (not
among the sources) return for a label. `shapeTypeText` stands for
`QString(StringUtils::rawText(shapeType)).remove("TopAbs_")`. -/
structure XdeDocument (Pnt R Loc Trsf Color : Type) where
  m_shapeTool : ShapeTool
  m_colorTool : ColorTool Color
  isShape : TDF_Label → Bool
  isShapeComponent : TDF_Label → Bool
  isShapeCompound : TDF_Label → Bool
  isShapeSub : TDF_Label → Bool
  shapeType : TDF_Label → TopAbs_ShapeEnum
  shapeTypeText : TopAbs_ShapeEnum → QString
  GetLocation : TDF_Label → Loc
  Transformation : Loc → Trsf
  attributes : TDF_Label → List (TDF_Attribute Pnt R)
  units : QuantityUnits R
  labelAttrStdName : TDF_Label → QString
  labelTag : TDF_Label → QString
  Tag : TDF_Label → Int

/-! ## The properties of a shape -/

/-- The value held by a property, one case per property class used in the file. -/
inductive PropertyValue (Pnt R Trsf Color : Type) where
  | QString (value : QString)
  | OccPnt (value : Pnt)
  | OccTrsf (value : Trsf)
  | Area (quantity : R)
  | Volume (quantity : R)
  | OccColor (value : Color)
deriving DecidableEq, Repr

/-- A property as `shapeProperties` hands it out (a `HandleProperty` owning the
property): its name, its value and whether the user may only read it. -/
structure HandleProperty (Pnt R Trsf Color : Type) where
  name : QString
  value : PropertyValue Pnt R Trsf Color
  userReadOnly : Bool
deriving DecidableEq, Repr

/-- `Property::setUserReadOnly(on)`. -/
def HandleProperty.setUserReadOnly {Pnt R Trsf Color : Type}
    (p : HandleProperty Pnt R Trsf Color) (readOnly : Bool) :
    HandleProperty Pnt R Trsf Color :=
  { p with userReadOnly := readOnly }

/-- `XdeDocumentItem::ShapePropertiesOption`. -/
inductive ShapePropertiesOption where
  | None
  | MergeReferred
deriving DecidableEq, Repr

/-- `Internal::addValidationProperties(validationProps, ptrVecHndProp, nameFormat)`,
lines 23-48; the vector is passed in and returned. -/
def addValidationProperties {Pnt R Trsf Color : Type}
    (validationProps : ValidationProperties Pnt R)
    (vecHndProp : List (HandleProperty Pnt R Trsf Color)) (nameFormat : QString) :
    List (HandleProperty Pnt R Trsf Color) :=
  let vec1 :=
    if validationProps.hasCentroid then
      vecHndProp ++ [⟨nameFormat.arg (tr "Centroid"), .OccPnt validationProps.centroid, false⟩]
    else vecHndProp
  let vec2 :=
    if validationProps.hasArea then
      vec1 ++ [⟨nameFormat.arg (tr "Area"), .Area validationProps.area, false⟩]
    else vec1
  let vec3 :=
    if validationProps.hasVolume then
      vec2 ++ [⟨nameFormat.arg (tr "Volume"), .Volume validationProps.volume, false⟩]
    else vec2
  vec3

section properties
variable {Pnt R Loc Trsf Color : Type} [Inhabited Pnt] [Zero R] [Mul R] [Inhabited Color]

/-- The list `listXdeShapeKind` built at lines 285-297. -/
def listXdeShapeKind (doc : XdeDocument Pnt R Loc Trsf Color) (label : TDF_Label) :
    List QString :=
  let l0 : List QString := []
  let l1 := if doc.m_shapeTool.isShapeAssembly label then l0 ++ [tr "Assembly"] else l0
  let l2 := if doc.m_shapeTool.isShapeReference label then l1 ++ [tr "Reference"] else l1
  let l3 := if doc.isShapeComponent label then l2 ++ [tr "Component"] else l2
  let l4 := if doc.isShapeCompound label then l3 ++ [tr "Compound"] else l3
  let l5 := if doc.m_shapeTool.isShapeSimple label then l4 ++ [tr "Simple"] else l4
  let l6 := if doc.isShapeSub label then l5 ++ [tr "Sub"] else l5
  l6

/-- `XdeDocumentItem::shapeProperties(label, opt)`, lines 273-333. -/
def shapeProperties (doc : XdeDocument Pnt R Loc Trsf Color) (label : TDF_Label)
    (opt : ShapePropertiesOption) : List (HandleProperty Pnt R Trsf Color) :=
  let vec0 : List (HandleProperty Pnt R Trsf Color) := []
  let shapeType := doc.shapeType label
  let vec1 := vec0 ++ [⟨tr "Shape", .QString (doc.shapeTypeText shapeType), false⟩]
  let vec2 := vec1 ++
    [⟨tr "XDE shape", .QString (QStringList.join (listXdeShapeKind doc label) "+"), false⟩]
  let vec3 :=
    if doc.m_shapeTool.isShapeReference label then
      let loc := doc.GetLocation label
      vec2 ++ [⟨tr "Location", .OccTrsf (doc.Transformation loc), false⟩]
    else vec2
  let vec4 := addValidationProperties
    (validationProperties doc.units (doc.attributes label)) vec3 "%1"
  let vec5 :=
    if hasShapeColor doc.m_colorTool label then
      vec4 ++ [⟨tr "Color", .OccColor (shapeColor doc.m_colorTool label), false⟩]
    else vec4
  let vec6 :=
    if doc.m_shapeTool.isShapeReference label
        && decide (opt = ShapePropertiesOption.MergeReferred) then
      let referredLabel := doc.m_shapeTool.shapeReferred label
      let vec := addValidationProperties
        (validationProperties doc.units (doc.attributes referredLabel)) vec5
        (tr "[Referred]%1")
      if hasShapeColor doc.m_colorTool referredLabel then
        vec ++ [⟨tr "[Referred]Color",
          .OccColor (shapeColor doc.m_colorTool referredLabel), false⟩]
      else vec
    else vec5
  vec6.map (fun prop => prop.setUserReadOnly true)

/-- The validation properties that `validationProps` reports as present, in the order
centroid, area, volume, named "Centroid", "Area", "Volume" after the text `pre`; all
read-only. -/
def validationPropertyList (pre : QString) (validationProps : ValidationProperties Pnt R) :
    List (HandleProperty Pnt R Trsf Color) :=
  (if validationProps.hasCentroid then
    [⟨pre ++ "Centroid", .OccPnt validationProps.centroid, true⟩] else []) ++
  (if validationProps.hasArea then
    [⟨pre ++ "Area", .Area validationProps.area, true⟩] else []) ++
  (if validationProps.hasVolume then
    [⟨pre ++ "Volume", .Volume validationProps.volume, true⟩] else [])

/-- The kinds among Assembly, Reference, Component, Compound, Simple, Sub whose
predicate holds on the label, joined by `+`. -/
def xdeShapeKindText (doc : XdeDocument Pnt R Loc Trsf Color) (label : TDF_Label) :
    QString :=
  "+".intercalate
    (([("Assembly", doc.m_shapeTool.isShapeAssembly label),
       ("Reference", doc.m_shapeTool.isShapeReference label),
       ("Component", doc.isShapeComponent label),
       ("Compound", doc.isShapeCompound label),
       ("Simple", doc.m_shapeTool.isShapeSimple label),
       ("Sub", doc.isShapeSub label)].filter (fun kind => kind.2)).map (fun kind => kind.1))

/-- The own properties of a label, as the layout reads: "Shape"; "XDE shape" with the
joined kinds; "Location" with the transformation of the reference location if the label
is a reference; the validation properties present on the label; "Color" with the colour
of the label if it has one. All are read-only. -/
def ownPropertyList (doc : XdeDocument Pnt R Loc Trsf Color) (label : TDF_Label) :
    List (HandleProperty Pnt R Trsf Color) :=
  [⟨"Shape", .QString (doc.shapeTypeText (doc.shapeType label)), true⟩,
   ⟨"XDE shape", .QString (xdeShapeKindText doc label), true⟩] ++
  (if doc.m_shapeTool.isShapeReference label then
    [⟨"Location", .OccTrsf (doc.Transformation (doc.GetLocation label)), true⟩] else []) ++
  validationPropertyList "" (validationProperties doc.units (doc.attributes label)) ++
  (if hasShapeColor doc.m_colorTool label then
    [⟨"Color", .OccColor (shapeColor doc.m_colorTool label), true⟩] else [])

/-- The properties merged in from the shape a reference refers to: its validation
properties under the names "[Referred]Centroid", "[Referred]Area", "[Referred]Volume",
then "[Referred]Color" with its colour if it has one. All are read-only. -/
def referredPropertyList (doc : XdeDocument Pnt R Loc Trsf Color) (label : TDF_Label) :
    List (HandleProperty Pnt R Trsf Color) :=
  validationPropertyList "[Referred]"
    (validationProperties doc.units (doc.attributes (doc.m_shapeTool.shapeReferred label))) ++
  (if hasShapeColor doc.m_colorTool (doc.m_shapeTool.shapeReferred label) then
    [⟨"[Referred]Color",
      .OccColor (shapeColor doc.m_colorTool (doc.m_shapeTool.shapeReferred label)), true⟩]
   else [])

/-- `XdeDocumentItem::findLabelName(lbl)`, lines 116-140. -/
def findLabelName (doc : XdeDocument Pnt R Loc Trsf Color) (lbl : TDF_Label) : QString :=
  let name := doc.labelAttrStdName lbl
  if name.isEmpty then
    if doc.isShape lbl then
      let name1 : QString :=
        match doc.shapeType lbl with
        | .TopAbs_COMPOUND => "Compound"
        | .TopAbs_COMPSOLID => "CompSolid"
        | .TopAbs_SOLID => "Solid"
        | .TopAbs_SHELL => "Shell"
        | .TopAbs_FACE => "Face"
        | .TopAbs_WIRE => "Wire"
        | .TopAbs_EDGE => "Edge"
        | .TopAbs_VERTEX => "Vertex"
        | .TopAbs_SHAPE => "Shape"
      (QString.arg "%1 %2" name1).argInt (doc.Tag lbl)
    else
      QString.arg "[[%1]]" (doc.labelTag lbl)
  else name

/-- The word `findLabelName` uses for a shape type. -/
def shapeTypeWord : TopAbs_ShapeEnum → QString
  | .TopAbs_COMPOUND => "Compound"
  | .TopAbs_COMPSOLID => "CompSolid"
  | .TopAbs_SOLID => "Solid"
  | .TopAbs_SHELL => "Shell"
  | .TopAbs_FACE => "Face"
  | .TopAbs_WIRE => "Wire"
  | .TopAbs_EDGE => "Edge"
  | .TopAbs_VERTEX => "Vertex"
  | .TopAbs_SHAPE => "Shape"

end properties

/-! ## Creating a root assembly -/

/-- A call of `XCAFDoc_ShapeTool` that changes the document. -/
inductive ShapeToolCall (Loc : Type) where
  | NewShape
  | AddComponent (assembly comp : TDF_Label) (loc : Loc)
  | UpdateAssemblies

/-- The shape tool of a document that changes: the document is the one the item was
created on together with the changing calls made on it since, in order; `view` gives the
queries on the document after those calls, `newShapeLabel` the label a call of
`NewShape()` made after them returns. -/
structure ShapeToolModel (Loc : Type) where
  view : List (ShapeToolCall Loc) → ShapeTool
  newShapeLabel : List (ShapeToolCall Loc) → TDF_Label

/-- The state of an `XdeDocumentItem`: its document, given by the changing calls made on
it so far, and its assembly tree. -/
structure XdeDocumentItem (Loc : Type) where
  m_cafDoc : List (ShapeToolCall Loc)
  m_asmTree : Tree

/-- `XdeDocumentItem::createRootAssembly()`, lines 75-87: the returned label and the new
state; `none` when the recursion bound of the tree builder was reached. A default
constructed `TopLoc_Location` is the identity `1`. -/
def createRootAssembly {Loc : Type} [One Loc] (m_shapeTool : ShapeToolModel Loc)
    (fuel : Nat) (self : XdeDocumentItem Loc) : Option (TDF_Label × XdeDocumentItem Loc) :=
  let vecFreeShape := (m_shapeTool.view self.m_cafDoc).topLevelFreeShapes
  if vecFreeShape.length > 1 then
    let asmLabel := m_shapeTool.newShapeLabel self.m_cafDoc
    let calls1 := self.m_cafDoc ++ [ShapeToolCall.NewShape]
    let calls2 := vecFreeShape.foldl
      (fun calls shapeLabel => calls ++ [ShapeToolCall.AddComponent asmLabel shapeLabel 1])
      calls1
    let calls3 := calls2 ++ [ShapeToolCall.UpdateAssemblies]
    match rebuildAssemblyTree (m_shapeTool.view calls3) fuel self.m_asmTree with
    | none => none
    | some tree => some (asmLabel, ⟨calls3, tree⟩)
  else
    some (if vecFreeShape.length = 1 then vecFreeShape.headD nullLabel else nullLabel, self)

/-- The calls `createRootAssembly` makes on a document with the free shapes
`vecFreeShape`: one new shape, one component with the identity location per free shape,
in order, and the update of the assemblies. -/
def rootAssemblyCalls {Loc : Type} [One Loc] (asmLabel : TDF_Label)
    (vecFreeShape : List TDF_Label) : List (ShapeToolCall Loc) :=
  [ShapeToolCall.NewShape] ++
    vecFreeShape.map (fun shapeLabel => ShapeToolCall.AddComponent asmLabel shapeLabel 1) ++
    [ShapeToolCall.UpdateAssemblies]

/-! ## Sample documents -/

/-- A sample document: the assembly 1 has the components 4 and 5, two references to
the simple shape 3, which has the sub-shapes 6 and 7; 2 is a second free shape. -/
def sampleShapeTool : ShapeTool where
  topLevelFreeShapes := [1, 2]
  isShapeAssembly := fun l => l == 1
  isShapeSimple := fun l => l == 3
  isShapeReference := fun l => l == 4 || l == 5
  shapeComponents := fun l => if l = 1 then [4, 5] else []
  shapeSubs := fun l => if l = 3 then [6, 7] else []
  shapeReferred := fun l => if l = 4 ∨ l = 5 then 3 else 0

/-- The height of a label of the sample document above the leaves. -/
def sampleRank (l : TDF_Label) : Nat :=
  if l = 1 then 3 else if l = 4 ∨ l = 5 then 2 else if l = 3 then 1 else 0

/-- A document in which the label 1 is an assembly without components and, at the same
time, a reference to the label 2. -/
def dualKindShapeTool : ShapeTool where
  topLevelFreeShapes := [1]
  isShapeAssembly := fun l => l == 1
  isShapeSimple := fun _ => false
  isShapeReference := fun l => l == 1
  shapeComponents := fun _ => []
  shapeSubs := fun _ => []
  shapeReferred := fun _ => 2

/-- The assembly tree of the sample document. -/
def sampleTree : Tree :=
  ⟨[⟨0, 1⟩, ⟨1, 4⟩, ⟨2, 3⟩, ⟨3, 6⟩, ⟨3, 7⟩, ⟨1, 5⟩, ⟨6, 3⟩, ⟨7, 6⟩, ⟨7, 7⟩, ⟨0, 2⟩]⟩

/-- Sample locations: the location of a label is a letter of its own, so a product of
locations spells the labels it was built from, in order. -/
def sampleLocation (l : TDF_Label) : FreeMonoid Nat := FreeMonoid.of l

/-- Sample units. -/
def sampleUnits : QuantityUnits Int := ⟨100, 1000⟩

/-- A sample attribute sequence: one area, one centroid and one volume among attributes
of other kinds. -/
def sampleAttributes : List (TDF_Attribute (Int × Int × Int) Int) :=
  [.other 5, .XCAFDoc_Area 3, .XCAFDoc_Centroid (1, 2, 3), .other 9, .XCAFDoc_Volume 4,
    .other 2]

/-- A sample colour tool, colours being numbers: the label 1 has the surface colour 7
and the curve colour 8, the label 3 has the generic colour 5, no other colour is set. -/
def sampleColorTool : ColorTool Nat where
  IsSet := fun l ty =>
    (l == 1 && (ty == .XCAFDoc_ColorSurf || ty == .XCAFDoc_ColorCurv))
      || (l == 3 && ty == .XCAFDoc_ColorGen)
  GetColor := fun l ty =>
    match l, ty with
    | 1, .XCAFDoc_ColorSurf => some 7
    | 1, .XCAFDoc_ColorCurv => some 8
    | 3, .XCAFDoc_ColorGen => some 5
    | _, _ => none

/-- The sample document after its two free shapes were put below the new assembly 8:
the components 9 and 10 of the assembly refer to the former free shapes 1 and 2. -/
def rootedShapeTool : ShapeTool where
  topLevelFreeShapes := [8]
  isShapeAssembly := fun l => l == 8 || l == 1
  isShapeSimple := fun l => l == 3
  isShapeReference := fun l => l == 4 || l == 5 || l == 9 || l == 10
  shapeComponents := fun l => if l = 8 then [9, 10] else if l = 1 then [4, 5] else []
  shapeSubs := fun l => if l = 3 then [6, 7] else []
  shapeReferred := fun l =>
    if l = 9 then 1 else if l = 10 then 2 else if l = 4 ∨ l = 5 then 3 else 0

/-- The height of a label of the rooted sample document above the leaves. -/
def rootedRank (l : TDF_Label) : Nat :=
  if l = 8 then 5 else if l = 9 ∨ l = 10 then 4 else sampleRank l

/-- The call is `UpdateAssemblies`. -/
def ShapeToolCall.isUpdate {Loc : Type} : ShapeToolCall Loc → Bool
  | .UpdateAssemblies => true
  | _ => false

/-- A sample changing document: the sample document until the assemblies are updated,
the rooted sample document afterwards; a new shape gets the label 8. -/
def sampleModel : ShapeToolModel (FreeMonoid Nat) where
  view := fun calls => if calls.any ShapeToolCall.isUpdate then rootedShapeTool
    else sampleShapeTool
  newShapeLabel := fun _ => 8

/-- A document without any shape. -/
def emptyModel : ShapeToolModel (FreeMonoid Nat) where
  view := fun _ => ⟨[], fun _ => false, fun _ => false, fun _ => false, fun _ => [],
    fun _ => [], fun _ => 0⟩
  newShapeLabel := fun _ => 1

/-- A sample document around the sample shape tool. -/
def sampleDocument : XdeDocument (Int × Int × Int) Int (FreeMonoid Nat) Nat Nat where
  m_shapeTool := sampleShapeTool
  m_colorTool := sampleColorTool
  isShape := fun l => decide (1 ≤ l ∧ l ≤ 7)
  isShapeComponent := fun l => l == 4 || l == 5
  isShapeCompound := fun _ => false
  isShapeSub := fun l => l == 6 || l == 7
  shapeType := fun l =>
    if l = 1 then .TopAbs_COMPOUND else if l = 6 ∨ l = 7 then .TopAbs_FACE else .TopAbs_SOLID
  shapeTypeText := fun ty =>
    match ty with
    | .TopAbs_COMPOUND => "COMPOUND"
    | .TopAbs_FACE => "FACE"
    | _ => "SOLID"
  GetLocation := sampleLocation
  Transformation := fun loc => (FreeMonoid.toList loc).sum
  attributes := fun l => if l = 3 then sampleAttributes else []
  units := sampleUnits
  labelAttrStdName := fun l => if l = 1 then "Gearbox" else ""
  labelTag := fun l => if l = 9 then "0:1:9" else "0:1:1"
  Tag := fun l => l

/-! ## Theorems -/

theorem dataOfParent_append (a b : List TreeNode) (n : Nat) :
    dataOfParent (a ++ b) n = dataOfParent a n ++ dataOfParent b n := by
  simp [dataOfParent]

theorem dataOfParent_cons (a : TreeNode) (b : List TreeNode) (n : Nat) :
    dataOfParent (a :: b) n =
      (if a.parent = n then [a.data] else []) ++ dataOfParent b n := by
  by_cases h : a.parent = n <;> simp [dataOfParent, h]

theorem dataOfParent_eq_nil (l : List TreeNode) (n : Nat)
    (h : ∀ x ∈ l, x.parent ≠ n) : dataOfParent l n = [] := by
  simp only [dataOfParent, List.map_eq_nil_iff, List.filter_eq_nil_iff]
  intro x hx
  simpa using h x hx

theorem forestOk_nil (sh : ShapeTool) (node b : Nat) : ForestOk sh node b [] [] := by
  refine ⟨?_, rfl, ?_⟩
  · intro x hx; simp at hx
  · intro j x hx; simp at hx

theorem forestOk_cons (sh : ShapeTool) (node b : Nat) (c : TDF_Label)
    (cs : List TDF_Label) (rest1 ext2 : List TreeNode) (hnode : node ≤ b)
    (h1 : ForestOk sh (b + 1) (b + 1) (walkedChildren sh c) rest1)
    (h2 : ForestOk sh node (b + 1 + rest1.length) cs ext2) :
    ForestOk sh node b (c :: cs) (⟨node, c⟩ :: (rest1 ++ ext2)) := by
  obtain ⟨p1, k1, q1⟩ := h1
  obtain ⟨p2, k2, q2⟩ := h2
  have nil1 : ∀ k, k ≤ b ∨ b + 1 + rest1.length < k → dataOfParent rest1 k = [] := by
    intro k hk
    apply dataOfParent_eq_nil
    intro x hx
    have := p1 x hx
    omega
  have nil2 : ∀ k, b < k → k ≤ b + 1 + rest1.length → dataOfParent ext2 k = [] := by
    intro k hk hk2
    apply dataOfParent_eq_nil
    intro x hx
    have := p2 x hx
    omega
  refine ⟨?_, ?_, ?_⟩
  · intro x hx
    simp only [List.mem_cons, List.mem_append, List.length_cons, List.length_append] at hx ⊢
    rcases hx with rfl | hx | hx
    · exact ⟨Or.inl rfl, by simp only; omega⟩
    · have := p1 x hx; omega
    · have := p2 x hx; omega
  · rw [dataOfParent_cons, dataOfParent_append, nil1 node (Or.inl hnode), k2]
    simp
  · intro j x hx
    rw [dataOfParent_cons, dataOfParent_append]
    have hne : ¬ (node = b + j + 1) := by omega
    simp only [hne, if_false, List.nil_append]
    cases j with
    | zero =>
      simp only [List.getElem?_cons_zero, Option.some.injEq] at hx
      subst hx
      rw [nil2 (b + 0 + 1) (by omega) (by omega)]
      simpa using k1
    | succ j =>
      simp only [List.getElem?_cons_succ] at hx
      by_cases hj : j < rest1.length
      · rw [List.getElem?_append_left hj] at hx
        rw [nil2 (b + (j + 1) + 1) (by omega) (by omega)]
        have := q1 j x hx
        simpa [Nat.add_assoc, Nat.add_comm, Nat.add_left_comm] using this
      · rw [List.getElem?_append_right (by omega)] at hx
        rw [nil1 (b + (j + 1) + 1) (Or.inr (by omega))]
        have := q2 (j - rest1.length) x hx
        have e : b + 1 + rest1.length + (j - rest1.length) + 1 = b + (j + 1) + 1 := by omega
        rw [e] at this
        simpa using this

theorem forEachLabel_singleton (body : Tree → TDF_Label → Option Tree) (t : Tree)
    (c : TDF_Label) : forEachLabel body t [c] = body t c := by
  simp only [forEachLabel]
  cases body t c <;> rfl

/-- One unfolding of the builder: append the node, then walk the children the label
asks for. -/
theorem deepBuild_succ (sh : ShapeTool) (fuel : Nat) (t : Tree) (p : Nat)
    (label : TDF_Label) :
    deepBuildAssemblyTree sh (fuel + 1) t p label =
      forEachLabel (fun t1 child => deepBuildAssemblyTree sh fuel t1 (t.size + 1) child)
        ⟨t.m_vecNode ++ [⟨p, label⟩]⟩ (walkedChildren sh label) := by
  simp only [deepBuildAssemblyTree, walkedChildren, Tree.appendChild, Tree.size]
  split
  · rfl
  · split
    · rfl
    · split
      · rw [forEachLabel_singleton]
      · rfl

theorem forEach_forest (sh : ShapeTool) (fuel : Nat)
    (H : ∀ (t : Tree) (p : Nat) (label : TDF_Label) (t1 : Tree),
      deepBuildAssemblyTree sh fuel t p label = some t1 →
      ∃ rest, t1.m_vecNode = t.m_vecNode ++ ⟨p, label⟩ :: rest ∧
        ForestOk sh (t.size + 1) (t.size + 1) (walkedChildren sh label) rest)
    (node : Nat) (cs : List TDF_Label) :
    ∀ (t t1 : Tree), node ≤ t.size →
      forEachLabel (fun t0 c => deepBuildAssemblyTree sh fuel t0 node c) t cs = some t1 →
      ∃ ext, t1.m_vecNode = t.m_vecNode ++ ext ∧ ForestOk sh node t.size cs ext := by
  induction cs with
  | nil =>
    intro t t1 _ h
    simp only [forEachLabel, Option.some.injEq] at h
    subst h
    exact ⟨[], by simp, forestOk_nil sh node _⟩
  | cons c cs ih =>
    intro t t1 hn h
    simp only [forEachLabel] at h
    cases hb : deepBuildAssemblyTree sh fuel t node c with
    | none => simp [hb] at h
    | some t2 =>
      simp only [hb] at h
      obtain ⟨rest1, e1, f1⟩ := H t node c t2 hb
      have hsz : t2.size = t.size + 1 + rest1.length := by
        simp only [Tree.size, e1, List.length_append, List.length_cons]; omega
      obtain ⟨ext2, e2, f2⟩ := ih t2 t1 (by omega) h
      refine ⟨⟨node, c⟩ :: (rest1 ++ ext2), ?_, ?_⟩
      · rw [e2, e1]; simp
      · rw [hsz] at f2
        exact forestOk_cons sh node t.size c cs rest1 ext2 hn f1 f2

theorem deepBuild_forest (sh : ShapeTool) (fuel : Nat) :
    ∀ (t : Tree) (p : Nat) (label : TDF_Label) (t1 : Tree),
      deepBuildAssemblyTree sh fuel t p label = some t1 →
      ∃ rest, t1.m_vecNode = t.m_vecNode ++ ⟨p, label⟩ :: rest ∧
        ForestOk sh (t.size + 1) (t.size + 1) (walkedChildren sh label) rest := by
  induction fuel with
  | zero => intro t p label t1 h; simp [deepBuildAssemblyTree] at h
  | succ fuel ih =>
    intro t p label t1 h
    rw [deepBuild_succ] at h
    obtain ⟨ext, e, f⟩ := forEach_forest sh fuel ih (t.size + 1) (walkedChildren sh label)
      ⟨t.m_vecNode ++ [⟨p, label⟩]⟩ t1 (by simp [Tree.size]) h
    refine ⟨ext, by rw [e]; simp, ?_⟩
    simpa [Tree.size] using f

theorem bumpPath_injective : Function.Injective bumpPath := by
  intro a b h
  cases a <;> cases b <;> simp_all [bumpPath]

theorem buildsForestPaths_nil (sh : ShapeTool) (kids : TDF_Label → List TDF_Label) :
    BuildsForestPaths sh kids [] := by
  refine ⟨0, fun fuel _ t node => ⟨t, [], [], ?_⟩⟩
  simp [forEachLabel]

theorem buildsForestPaths_cons (sh : ShapeTool) (kids : TDF_Label → List TDF_Label)
    (c : TDF_Label) (cs : List TDF_Label) (hc : BuildsPaths sh kids c)
    (hcs : BuildsForestPaths sh kids cs) : BuildsForestPaths sh kids (c :: cs) := by
  obtain ⟨n1, h1⟩ := hc
  obtain ⟨n2, h2⟩ := hcs
  refine ⟨max n1 n2, fun fuel hf t node => ?_⟩
  obtain ⟨t1, a1, p1, e1, v1, nd1, m1, d1⟩ := h1 fuel (le_trans (le_max_left _ _) hf) t node
  obtain ⟨t2, a2, p2, e2, v2, nd2, m2, d2⟩ := h2 fuel (le_trans (le_max_right _ _) hf) t1 node
  refine ⟨t2, a1 ++ a2, p1.map (List.cons 0) ++ p2.map bumpPath, ?_, ?_, ?_, ?_, ?_⟩
  · simp only [forEachLabel, e1, e2]
  · rw [v2, v1, List.append_assoc]
  · rw [List.nodup_append]
    refine ⟨nd1.map (fun a b h => by simpa using h), nd2.map bumpPath_injective, ?_⟩
    intro q hq1 hq2
    simp only [List.mem_map] at hq1 hq2
    obtain ⟨r, _, rfl⟩ := hq1
    obtain ⟨q2, _, h⟩ := hq2
    cases q2 <;> simp [bumpPath] at h
  · intro q
    simp only [List.mem_append, List.mem_map]
    constructor
    · rintro (⟨r, hr, rfl⟩ | ⟨q2, hq2, rfl⟩)
      · exact ⟨0, r, c, rfl, by simp, (m1 r).1 hr⟩
      · obtain ⟨i, rest, c2, rfl, hi, hp⟩ := (m2 q2).1 hq2
        exact ⟨i + 1, rest, c2, rfl, by simpa using hi, hp⟩
    · rintro ⟨i, rest, c2, rfl, hi, hp⟩
      cases i with
      | zero =>
        simp only [List.getElem?_cons_zero, Option.some.injEq] at hi
        subst hi
        exact Or.inl ⟨rest, (m1 rest).2 hp, rfl⟩
      | succ i =>
        simp only [List.getElem?_cons_succ] at hi
        exact Or.inr ⟨i :: rest, (m2 _).2 ⟨i, rest, c2, rfl, hi, hp⟩, rfl⟩
  · rw [List.map_append, List.map_append, d1, d2, List.map_map, List.map_map]
    congr 1
    apply List.map_congr_left
    intro q _
    cases q <;> simp [bumpPath, forestEnd]

theorem buildsForestPaths_of_forall (sh : ShapeTool) (kids : TDF_Label → List TDF_Label)
    (cs : List TDF_Label) (h : ∀ c ∈ cs, BuildsPaths sh kids c) :
    BuildsForestPaths sh kids cs := by
  induction cs with
  | nil => exact buildsForestPaths_nil sh kids
  | cons c cs ih =>
    exact buildsForestPaths_cons sh kids c cs (h c (by simp))
      (ih (fun c2 hc2 => h c2 (by simp [hc2])))

theorem buildsPaths_of_children (sh : ShapeTool) (label : TDF_Label)
    (h : BuildsForestPaths sh (walkedChildren sh) (walkedChildren sh label)) :
    BuildsPaths sh (walkedChildren sh) label := by
  obtain ⟨n, hn⟩ := h
  refine ⟨n + 1, fun fuel hf t p => ?_⟩
  obtain ⟨f, rfl⟩ : ∃ f, fuel = f + 1 := ⟨fuel - 1, by omega⟩
  obtain ⟨t1, a, ps, e, v, nd, m, d⟩ :=
    hn f (by omega) ⟨t.m_vecNode ++ [⟨p, label⟩]⟩ (t.size + 1)
  refine ⟨t1, ⟨p, label⟩ :: a, [] :: ps, ?_, ?_, ?_, ?_, ?_⟩
  · rw [deepBuild_succ, e]
  · rw [v]; simp
  · rw [List.nodup_cons]
    refine ⟨fun hmem => ?_, nd⟩
    obtain ⟨i, rest, c, hq, _⟩ := (m []).1 hmem
    cases hq
  · intro q
    cases q with
    | nil => simp [IsPath]
    | cons i rest =>
      simp only [List.mem_cons, IsPath, m]
      constructor
      · rintro (h | ⟨i2, rest2, c, hq, hi, hp⟩)
        · cases h
        · cases hq
          exact ⟨c, hi, hp⟩
      · rintro ⟨c, hi, hp⟩
        exact Or.inr ⟨i, rest, c, rfl, hi, hp⟩
  · simp only [List.map_cons, pathEnd, d, List.cons.injEq, true_and]
    apply List.map_congr_left
    intro q hq
    obtain ⟨i, rest, c, rfl, hi, _⟩ := (m q).1 hq
    simp [forestEnd, pathEnd, List.getD, hi]

theorem buildsPaths_of_acyclic (sh : ShapeTool) (hwf : Acyclic (walkedChildren sh))
    (label : TDF_Label) : BuildsPaths sh (walkedChildren sh) label := by
  refine hwf.induction (C := fun l => BuildsPaths sh (walkedChildren sh) l) label ?_
  intro l ih
  exact buildsPaths_of_children sh l
    (buildsForestPaths_of_forall sh _ _ (fun c hc => ih c hc))

theorem filterMap_range_getElem {α β : Type} (g : α → Option β) (ns : List α) :
    (List.range ns.length).filterMap (fun i => ns[i]?.bind g) = ns.filterMap g := by
  induction ns using List.reverseRecOn with
  | nil => simp
  | append_singleton l a ih =>
    rw [List.length_append, List.length_singleton, List.range_succ, List.filterMap_append,
      List.filterMap_append]
    have h1 : List.filterMap (fun i => (l ++ [a])[i]?.bind g) (List.range l.length)
        = List.filterMap g l := by
      rw [← ih]
      apply List.filterMap_congr
      intro i hi
      rw [List.mem_range] at hi
      rw [List.getElem?_append_left hi]
    have h2 : (l ++ [a])[l.length]? = some a := by
      rw [List.getElem?_append_right (le_refl _)]; simp
    rw [h1]
    congr 1
    simp only [List.filterMap_cons, h2, List.filterMap_nil]
    rfl

theorem map_filter_eq_filterMap {α β : Type} (p : α → Bool) (f : α → β) (ns : List α) :
    (ns.filter p).map f = ns.filterMap (fun x => if p x then some (f x) else none) := by
  induction ns with
  | nil => rfl
  | cons a l ih =>
    by_cases h : p a <;> simp [List.filter_cons, List.filterMap_cons, h, ih]

theorem ptrNode_succ (t : Tree) (i : Nat) : t.ptrNode (i + 1) = t.m_vecNode[i]? := by
  simp [Tree.ptrNode]

/-- The labels of the children of a node, read through the tree interface, are the
labels of the stored nodes that record it as their parent. -/
theorem childLabels_eq (t : Tree) (n : Nat) :
    t.childLabels n = dataOfParent t.m_vecNode n := by
  unfold Tree.childLabels Tree.children dataOfParent
  rw [List.filterMap_filterMap, map_filter_eq_filterMap, Tree.size,
    ← filterMap_range_getElem _ t.m_vecNode]
  apply List.filterMap_congr
  intro i _
  simp only [Tree.nodeParent, Tree.nodeData, ptrNode_succ]
  cases h : t.m_vecNode[i]? with
  | none => simp
  | some x =>
    by_cases hp : x.parent = n <;> simp [hp, Tree.nodeData, ptrNode_succ, h]

theorem acyclic_of_rank (kids : TDF_Label → List TDF_Label) (rank : TDF_Label → Nat)
    (h : ∀ l c, c ∈ kids l → rank c < rank l) : Acyclic kids :=
  Subrelation.wf (fun {c l} hc => h l c hc) (InvImage.wf rank Nat.lt_wfRel.wf)

theorem walked_subset_related (sh : ShapeTool) (l c : TDF_Label)
    (h : c ∈ walkedChildren sh l) : c ∈ relatedChildren sh l := by
  unfold walkedChildren at h
  unfold relatedChildren
  split_ifs at h <;> simp_all

/-- Acyclicity of the relation with the three kinds side by side gives acyclicity of the
hierarchy the builder walks. -/
theorem acyclic_walked_of_related (sh : ShapeTool) (h : Acyclic (relatedChildren sh)) :
    Acyclic (walkedChildren sh) :=
  Subrelation.wf (fun {c l} hc => walked_subset_related sh l c hc) h

theorem sample_acyclic : Acyclic (walkedChildren sampleShapeTool) := by
  apply acyclic_of_rank _ sampleRank
  intro l c h
  simp only [walkedChildren, sampleShapeTool] at h
  split_ifs at h <;> simp at h <;> rename_i hl <;> (try rcases hl with rfl | rfl) <;>
    (try rcases h with rfl | rfl) <;> simp_all [sampleRank]

/-- The sample tree is the tree `rebuildAssemblyTree` builds on the sample document. -/
theorem sampleTree_rebuilt :
    rebuildAssemblyTree sampleShapeTool 4 ⟨[]⟩ = some sampleTree := by
  decide

theorem rebuild_returns (sh : ShapeTool) (hwf : Acyclic (walkedChildren sh)) :
    ∃ n : Nat, ∀ fuel, n ≤ fuel → ∃ built : Tree,
      ∀ old : Tree, rebuildAssemblyTree sh fuel old = some built := by
  obtain ⟨n, hn⟩ := buildsForestPaths_of_forall sh (walkedChildren sh) sh.topLevelFreeShapes
    (fun c _ => buildsPaths_of_acyclic sh hwf c)
  refine ⟨n, fun fuel hf => ?_⟩
  obtain ⟨t1, _, _, e, _⟩ := hn fuel hf ⟨[]⟩ 0
  exact ⟨t1, fun old => e⟩

theorem rebuild_structure (sh : ShapeTool) (fuel : Nat) (old t : Tree)
    (h : rebuildAssemblyTree sh fuel old = some t) :
    t.childLabels 0 = sh.topLevelFreeShapes ∧
    ∀ (id : AssemblyNodeId) (label : TDF_Label), t.nodeData id = some label →
      t.childLabels id = walkedChildren sh label := by
  obtain ⟨ext, e, _, k, q⟩ := forEach_forest sh fuel (deepBuild_forest sh fuel) 0
    sh.topLevelFreeShapes ⟨[]⟩ t (Nat.zero_le _) h
  simp only [List.nil_append] at e
  refine ⟨by rw [childLabels_eq, e, k], fun id label hid => ?_⟩
  rw [childLabels_eq, e]
  cases id with
  | zero => simp [Tree.nodeData, Tree.ptrNode] at hid
  | succ i =>
    simp only [Tree.nodeData, ptrNode_succ, e, Option.map_eq_some'] at hid
    obtain ⟨x, hx, rfl⟩ := hid
    have := q i x hx
    simpa [Tree.size] using this

/-- C1: over an acyclic label hierarchy `rebuildAssemblyTree` returns (with enough
recursion depth), and in the tree it leaves the children of the root id 0 carry the
labels of `topLevelFreeShapes()` in the same order, while the children of every node
carrying a label `L` carry, in order, `shapeComponents(L)` if `L` is an assembly,
otherwise `shapeSubs(L)` if `L` is a simple shape, otherwise the single label
`shapeReferred(L)` if `L` is a reference, and otherwise the node has no children. -/
theorem rebuildAssemblyTree_children (sh : ShapeTool)
    (hwf : Acyclic (walkedChildren sh)) (old : Tree) :
    ∃ n : Nat, ∀ fuel, n ≤ fuel → ∃ t : Tree,
      rebuildAssemblyTree sh fuel old = some t ∧
      t.childLabels 0 = sh.topLevelFreeShapes ∧
      ∀ (id : AssemblyNodeId) (label : TDF_Label), t.nodeData id = some label →
        t.childLabels id =
          if sh.isShapeAssembly label then sh.shapeComponents label
          else if sh.isShapeSimple label then sh.shapeSubs label
          else if sh.isShapeReference label then [sh.shapeReferred label]
          else [] := by
  obtain ⟨n, hn⟩ := rebuild_returns sh hwf
  refine ⟨n, fun fuel hf => ?_⟩
  obtain ⟨t, ht⟩ := hn fuel hf
  exact ⟨t, ht old, rebuild_structure sh fuel old t (ht old)⟩

/-- C1, on the sample document: the hierarchy is acyclic and the rebuilt tree has the
children the labels ask for. -/
theorem rebuildAssemblyTree_children_sample :
    Acyclic (walkedChildren sampleShapeTool) ∧
    ∃ n : Nat, ∀ fuel, n ≤ fuel → ∃ t : Tree,
      rebuildAssemblyTree sampleShapeTool fuel ⟨[]⟩ = some t ∧
      t.childLabels 0 = sampleShapeTool.topLevelFreeShapes ∧
      ∀ (id : AssemblyNodeId) (label : TDF_Label), t.nodeData id = some label →
        t.childLabels id =
          if sampleShapeTool.isShapeAssembly label then sampleShapeTool.shapeComponents label
          else if sampleShapeTool.isShapeSimple label then sampleShapeTool.shapeSubs label
          else if sampleShapeTool.isShapeReference label then
            [sampleShapeTool.shapeReferred label]
          else [] :=
  ⟨sample_acyclic, rebuildAssemblyTree_children sampleShapeTool sample_acyclic ⟨[]⟩⟩

/-- C8: over an acyclic document the tree left by `rebuildAssemblyTree` does not depend
on the tree it started from: whatever the previous tree, the result is the tree built
from the empty tree, so no node of the previous tree survives, and rebuilding twice in a
row gives the same tree as rebuilding once. -/
theorem rebuildAssemblyTree_independent (sh : ShapeTool)
    (hwf : Acyclic (walkedChildren sh)) :
    ∃ n : Nat, ∀ fuel, n ≤ fuel → ∃ built : Tree,
      rebuildAssemblyTree sh fuel ⟨[]⟩ = some built ∧
      (∀ old : Tree, rebuildAssemblyTree sh fuel old = some built) ∧
      (∀ old : Tree, (rebuildAssemblyTree sh fuel old).bind (rebuildAssemblyTree sh fuel)
        = rebuildAssemblyTree sh fuel old) := by
  obtain ⟨n, hn⟩ := rebuild_returns sh hwf
  refine ⟨n, fun fuel hf => ?_⟩
  obtain ⟨t, ht⟩ := hn fuel hf
  refine ⟨t, ht _, ht, fun old => ?_⟩
  rw [ht old, Option.some_bind, ht t]

/-- C8, on the sample document. -/
theorem rebuildAssemblyTree_independent_sample :
    Acyclic (walkedChildren sampleShapeTool) ∧
    ∃ n : Nat, ∀ fuel, n ≤ fuel → ∃ built : Tree,
      rebuildAssemblyTree sampleShapeTool fuel ⟨[]⟩ = some built ∧
      (∀ old : Tree, rebuildAssemblyTree sampleShapeTool fuel old = some built) ∧
      (∀ old : Tree,
        (rebuildAssemblyTree sampleShapeTool fuel old).bind
          (rebuildAssemblyTree sampleShapeTool fuel)
        = rebuildAssemblyTree sampleShapeTool fuel old) :=
  ⟨sample_acyclic, rebuildAssemblyTree_independent sampleShapeTool sample_acyclic⟩

theorem dualKind_acyclic : Acyclic (relatedChildren dualKindShapeTool) := by
  apply acyclic_of_rank _ (fun l => if l = 1 then 1 else 0)
  intro l c h
  simp only [relatedChildren, dualKindShapeTool] at h
  by_cases hl : l = 1
  · subst hl
    simp at h
    subst h
    simp
  · simp [hl] at h

/-- C9 as stated fails: in the document where the label 1 is both an assembly without
components and a reference to the label 2, the relation "component of an assembly,
sub-shape of a simple shape or referred shape of a reference" is well-founded and has
two paths starting at 1 (the empty one and the step to 2), while
`deepBuildAssemblyTree(parent, 1)` appends the single node of the label 1. -/
theorem deepBuild_not_one_node_per_related_path :
    Acyclic (relatedChildren dualKindShapeTool) ∧
    ¬ BuildsPaths dualKindShapeTool (relatedChildren dualKindShapeTool) 1 := by
  refine ⟨dualKind_acyclic, ?_⟩
  rintro ⟨n, hn⟩
  obtain ⟨t1, added, paths, e, v, nd, m, d⟩ := hn (n + 1) (Nat.le_succ n) ⟨[]⟩ 0
  have hb : deepBuildAssemblyTree dualKindShapeTool (n + 1) ⟨[]⟩ 0 1
      = some ⟨[⟨0, 1⟩]⟩ := by
    rw [deepBuild_succ]
    simp [walkedChildren, dualKindShapeTool, forEachLabel]
  rw [hb] at e
  cases e
  simp only [List.nil_append] at v
  have hlen : paths.length = 1 := by
    have := congrArg List.length d
    rw [← v] at this
    simpa using this.symm
  have h0 : ([] : List Nat) ∈ paths := (m []).2 (by simp [IsPath])
  have h1 : [0] ∈ paths :=
    (m [0]).2 (by simp [IsPath, relatedChildren, dualKindShapeTool])
  have hsub : [([] : List Nat), [0]].Subperm paths :=
    List.subperm_of_subset (by simp) (by simp [h0, h1])
  have := hsub.length_le
  simp only [List.length_cons, List.length_nil] at this
  omega

/-- C9, amended: when the hierarchy the builder walks (the children of `L` are
`shapeComponents(L)` if `L` is an assembly, otherwise `shapeSubs(L)` if `L` is a simple
shape, otherwise `shapeReferred(L)` if `L` is a reference) is well-founded,
`deepBuildAssemblyTree(parent, L)` returns for every label `L` with enough recursion
depth, and it appends one node per path of that hierarchy starting at `L`: the paths,
listed once each, end at the labels the appended nodes carry. -/
theorem deepBuild_one_node_per_walked_path (sh : ShapeTool)
    (hwf : Acyclic (walkedChildren sh)) (label : TDF_Label) :
    BuildsPaths sh (walkedChildren sh) label :=
  buildsPaths_of_acyclic sh hwf label

/-- C9, amended, on the sample document, at the assembly 1. -/
theorem deepBuild_one_node_per_walked_path_sample :
    Acyclic (walkedChildren sampleShapeTool) ∧
    BuildsPaths sampleShapeTool (walkedChildren sampleShapeTool) 1 :=
  ⟨sample_acyclic, deepBuild_one_node_per_walked_path sampleShapeTool sample_acyclic 1⟩

theorem isParentChain_append (t : Tree) (init : List Nat) (n : Nat) :
    ∀ top, IsParentChain t top (init ++ [n]) ↔
      IsParentChain t top init ∧ t.nodeParent n = some (init.getLastD top) := by
  induction init with
  | nil => intro top; simp [IsParentChain]
  | cons a l ih =>
    intro top
    have key : (a :: l).getLastD top = l.getLastD a := by
      cases l <;> rfl
    show t.nodeParent a = some top ∧ IsParentChain t a (l ++ [n]) ↔
      (t.nodeParent a = some top ∧ IsParentChain t a l) ∧
        t.nodeParent n = some ((a :: l).getLastD top)
    rw [ih a, key, and_assoc]

theorem absLoop_zero {Loc : Type} [Mul Loc] (GetLocation : TDF_Label → Loc) (t : Tree)
    (fuel : Nat) (acc : Loc) :
    shapeAbsoluteLocationLoop GetLocation t fuel acc 0 = some acc := by
  cases fuel <;> simp [shapeAbsoluteLocationLoop]

theorem absLoop_chain {Loc : Type} [Monoid Loc] (GetLocation : TDF_Label → Loc) (t : Tree)
    (chain : List Nat) :
    ∀ top, IsParentChain t top chain → ∀ (acc : Loc) (fuel : Nat),
      shapeAbsoluteLocationLoop GetLocation t (fuel + chain.length) acc (chain.getLastD top)
        = shapeAbsoluteLocationLoop GetLocation t fuel
            ((chain.map (nodeLocation GetLocation t)).prod * acc) top := by
  induction chain using List.reverseRecOn with
  | nil => intro top _ acc fuel; simp
  | append_singleton init n ih =>
    intro top h acc fuel
    rw [isParentChain_append] at h
    obtain ⟨h1, h2⟩ := h
    have hn : n ≠ 0 := by
      rintro rfl
      simp [Tree.nodeParent, Tree.ptrNode] at h2
    obtain ⟨x, hx⟩ : ∃ x, t.ptrNode n = some x := by
      cases hp : t.ptrNode n with
      | none => simp [Tree.nodeParent, hp] at h2
      | some x => exact ⟨x, rfl⟩
    have hd : t.nodeData n = some x.data := by simp [Tree.nodeData, hx]
    have hl : nodeLocation GetLocation t n = GetLocation x.data := by
      simp [nodeLocation, hd]
    have e : fuel + (init ++ [n]).length = (fuel + init.length) + 1 := by
      simp [Nat.add_assoc]
    rw [e, List.getLastD_concat]
    simp only [shapeAbsoluteLocationLoop, hn, if_false, hd, h2]
    rw [ih top h1]
    simp only [List.map_append, List.map_cons, List.map_nil, List.prod_append,
      List.prod_cons, List.prod_nil, hl, mul_one, mul_assoc]

/-- C3: for a node `n` whose chain of parents, read down from the root, is
`n_1` (a child of the root 0), `n_2`, ..., `n_k = n`, the loop of `shapeAbsoluteLocation`
ends within `k` runs and the result is `loc(n_1) * loc(n_2) * ... * loc(n_k)`, the
outermost ancestor leftmost, where `loc(n_i)` is the shape tool's location of the label
stored at `n_i`; for `n = 0` the result is the identity location. -/
theorem shapeAbsoluteLocation_chain {Loc : Type} [Monoid Loc]
    (GetLocation : TDF_Label → Loc) (t : Tree) (chain : List AssemblyNodeId)
    (h : IsParentChain t 0 chain) (fuel : Nat) (hf : chain.length ≤ fuel) :
    shapeAbsoluteLocation GetLocation t fuel (chain.getLastD 0)
      = some (chain.map (nodeLocation GetLocation t)).prod ∧
    shapeAbsoluteLocation GetLocation t fuel 0 = some 1 := by
  refine ⟨?_, absLoop_zero GetLocation t fuel 1⟩
  obtain ⟨f, rfl⟩ : ∃ f, fuel = f + chain.length := ⟨fuel - chain.length, by omega⟩
  unfold shapeAbsoluteLocation
  rw [absLoop_chain GetLocation t chain 0 h, absLoop_zero, mul_one]

/-- C3, on the sample tree: the node 5 (the sub-shape 7 below the simple shape 3 below
the reference 4 below the assembly 1) has the parent chain 1, 2, 3, 5. -/
theorem shapeAbsoluteLocation_chain_sample :
    IsParentChain sampleTree 0 [1, 2, 3, 5] ∧ [1, 2, 3, 5].length ≤ 4 ∧
    (shapeAbsoluteLocation sampleLocation sampleTree 4 ([1, 2, 3, 5].getLastD 0)
      = some ([1, 2, 3, 5].map (nodeLocation sampleLocation sampleTree)).prod ∧
    shapeAbsoluteLocation sampleLocation sampleTree 4 0 = some 1) :=
  ⟨⟨rfl, rfl, rfl, rfl, trivial⟩, by decide,
    shapeAbsoluteLocation_chain sampleLocation sampleTree [1, 2, 3, 5]
      ⟨rfl, rfl, rfl, rfl, trivial⟩ 4 (by decide)⟩

theorem atMostOnePerKind_perm {Pnt R : Type} (l1 l2 : List (TDF_Attribute Pnt R)) (hp : l1.Perm l2)
    (h : AtMostOnePerKind l2) : AtMostOnePerKind l1 := by
  unfold AtMostOnePerKind at *
  rw [hp.countP_eq, hp.countP_eq, hp.countP_eq]
  exact h

theorem any_isCentroid_iff {Pnt R : Type} (l : List (TDF_Attribute Pnt R)) :
    l.any TDF_Attribute.isCentroid = true ↔ ∃ c, TDF_Attribute.XCAFDoc_Centroid c ∈ l := by
  rw [List.any_eq_true]
  constructor
  · rintro ⟨x, hx, hk⟩
    cases x <;> simp [TDF_Attribute.isCentroid] at hk
    exact ⟨_, hx⟩
  · rintro ⟨c, hc⟩
    exact ⟨_, hc, rfl⟩

theorem any_isArea_iff {Pnt R : Type} (l : List (TDF_Attribute Pnt R)) :
    l.any TDF_Attribute.isArea = true ↔ ∃ a, TDF_Attribute.XCAFDoc_Area a ∈ l := by
  rw [List.any_eq_true]
  constructor
  · rintro ⟨x, hx, hk⟩
    cases x <;> simp [TDF_Attribute.isArea] at hk
    exact ⟨_, hx⟩
  · rintro ⟨c, hc⟩
    exact ⟨_, hc, rfl⟩

theorem any_isVolume_iff {Pnt R : Type} (l : List (TDF_Attribute Pnt R)) :
    l.any TDF_Attribute.isVolume = true ↔ ∃ v, TDF_Attribute.XCAFDoc_Volume v ∈ l := by
  rw [List.any_eq_true]
  constructor
  · rintro ⟨x, hx, hk⟩
    cases x <;> simp [TDF_Attribute.isVolume] at hk
    exact ⟨_, hx⟩
  · rintro ⟨c, hc⟩
    exact ⟨_, hc, rfl⟩

theorem countP_zero_of_any_false {α : Type} (p : α → Bool) (l : List α)
    (h : l.any p = false) : l.countP p = 0 := by
  rw [List.countP_eq_zero]
  intro a ha hp
  have : l.any p = true := List.any_eq_true.2 ⟨a, ha, hp⟩
  rw [h] at this
  cases this

section validation
variable {Pnt R : Type} [Mul R] (u : QuantityUnits R)

theorem validation_foldl_flags (l : List (TDF_Attribute Pnt R)) :
    ∀ p : ValidationProperties Pnt R,
      (l.foldl (validationStep u) p).hasCentroid
          = (p.hasCentroid || l.any TDF_Attribute.isCentroid) ∧
      (l.foldl (validationStep u) p).hasArea = (p.hasArea || l.any TDF_Attribute.isArea) ∧
      (l.foldl (validationStep u) p).hasVolume
          = (p.hasVolume || l.any TDF_Attribute.isVolume) := by
  induction l with
  | nil => intro p; simp
  | cons a l ih =>
    intro p
    simp only [List.foldl_cons, ih, List.any_cons]
    cases a <;> simp [validationStep, TDF_Attribute.isCentroid, TDF_Attribute.isArea,
      TDF_Attribute.isVolume]

theorem validation_foldl_keep (l : List (TDF_Attribute Pnt R)) :
    ∀ p : ValidationProperties Pnt R,
      (l.countP TDF_Attribute.isCentroid = 0 →
        (l.foldl (validationStep u) p).centroid = p.centroid) ∧
      (l.countP TDF_Attribute.isArea = 0 →
        (l.foldl (validationStep u) p).area = p.area) ∧
      (l.countP TDF_Attribute.isVolume = 0 →
        (l.foldl (validationStep u) p).volume = p.volume) := by
  induction l with
  | nil => intro p; simp
  | cons a l ih =>
    intro p
    simp only [List.foldl_cons, List.countP_cons]
    refine ⟨fun h => ?_, fun h => ?_, fun h => ?_⟩
    · rw [(ih _).1 (by omega)]
      cases a <;> simp_all [validationStep, TDF_Attribute.isCentroid]
    · rw [(ih _).2.1 (by omega)]
      cases a <;> simp_all [validationStep, TDF_Attribute.isArea]
    · rw [(ih _).2.2 (by omega)]
      cases a <;> simp_all [validationStep, TDF_Attribute.isVolume]

theorem validation_foldl_value (l : List (TDF_Attribute Pnt R)) :
    ∀ p : ValidationProperties Pnt R,
      (l.countP TDF_Attribute.isCentroid ≤ 1 → ∀ c, .XCAFDoc_Centroid c ∈ l →
        (l.foldl (validationStep u) p).centroid = c) ∧
      (l.countP TDF_Attribute.isArea ≤ 1 → ∀ a, .XCAFDoc_Area a ∈ l →
        (l.foldl (validationStep u) p).area = a * u.Quantity_SquaredMillimeter) ∧
      (l.countP TDF_Attribute.isVolume ≤ 1 → ∀ v, .XCAFDoc_Volume v ∈ l →
        (l.foldl (validationStep u) p).volume = v * u.Quantity_CubicMillimeter) := by
  induction l with
  | nil => intro p; simp
  | cons a l ih =>
    intro p
    simp only [List.foldl_cons, List.countP_cons, List.mem_cons]
    refine ⟨fun h c hc => ?_, fun h c hc => ?_, fun h c hc => ?_⟩
    · rcases hc with rfl | hc
      · simp only [TDF_Attribute.isCentroid, if_true] at h
        rw [(validation_foldl_keep u l _).1 (by omega)]
        rfl
      · exact (ih _).1 (by omega) c hc
    · rcases hc with rfl | hc
      · simp only [TDF_Attribute.isArea, if_true] at h
        rw [(validation_foldl_keep u l _).2.1 (by omega)]
        rfl
      · exact (ih _).2.1 (by omega) c hc
    · rcases hc with rfl | hc
      · simp only [TDF_Attribute.isVolume, if_true] at h
        rw [(validation_foldl_keep u l _).2.2 (by omega)]
        rfl
      · exact (ih _).2.2 (by omega) c hc

theorem validation_foldl_others (l : List (TDF_Attribute Pnt R)) :
    ∀ p : ValidationProperties Pnt R,
      l.countP TDF_Attribute.isCentroid = 0 → l.countP TDF_Attribute.isArea = 0 →
      l.countP TDF_Attribute.isVolume = 0 → l.foldl (validationStep u) p = p := by
  induction l with
  | nil => intro p _ _ _; rfl
  | cons a l ih =>
    intro p h1 h2 h3
    simp only [List.countP_cons] at h1 h2 h3
    rw [List.foldl_cons, ih _ (by omega) (by omega) (by omega)]
    cases a <;> simp_all [validationStep, TDF_Attribute.isCentroid, TDF_Attribute.isArea,
      TDF_Attribute.isVolume]

theorem validationLoop_eq_foldl (l : List (TDF_Attribute Pnt R)) :
    ∀ p : ValidationProperties Pnt R,
      (p.hasCentroid = true → l.countP TDF_Attribute.isCentroid = 0) →
      (p.hasArea = true → l.countP TDF_Attribute.isArea = 0) →
      (p.hasVolume = true → l.countP TDF_Attribute.isVolume = 0) →
      AtMostOnePerKind l →
      validationLoop u p l = l.foldl (validationStep u) p := by
  induction l with
  | nil => intro p _ _ _ _; rfl
  | cons a l ih =>
    intro p h1 h2 h3 h
    obtain ⟨c1, c2, c3⟩ := h
    simp only [List.countP_cons] at h1 h2 h3 c1 c2 c3
    have k1 : (validationStep u p a).hasCentroid = true →
        l.countP TDF_Attribute.isCentroid = 0 := by
      clear ih h2 h3 c2 c3
      cases a <;> simp_all [validationStep, TDF_Attribute.isCentroid]
    have k2 : (validationStep u p a).hasArea = true →
        l.countP TDF_Attribute.isArea = 0 := by
      clear ih h1 h3 c1 c3 k1
      cases a <;> simp_all [validationStep, TDF_Attribute.isArea]
    have k3 : (validationStep u p a).hasVolume = true →
        l.countP TDF_Attribute.isVolume = 0 := by
      clear ih h1 h2 c1 c2 k1 k2
      cases a <;> simp_all [validationStep, TDF_Attribute.isVolume]
    simp only [validationLoop, List.foldl_cons]
    split
    · rename_i hall
      simp only [Bool.and_eq_true] at hall
      rw [validation_foldl_others u l _ (k1 hall.1.1) (k2 hall.1.2) (k3 hall.2)]
    · exact ih _ k1 k2 k3 ⟨by omega, by omega, by omega⟩

end validation

section aggregate
variable {Pnt R : Type} [Inhabited Pnt] [Zero R] [Mul R] (u : QuantityUnits R)

theorem validationProperties_eq_noBreak (attrs : List (TDF_Attribute Pnt R))
    (h : AtMostOnePerKind attrs) :
    validationProperties u attrs = validationPropertiesNoBreak u attrs :=
  validationLoop_eq_foldl u attrs ValidationProperties.zero
    (by simp [ValidationProperties.zero]) (by simp [ValidationProperties.zero])
    (by simp [ValidationProperties.zero]) h

theorem validationProperties_agg (attrs : List (TDF_Attribute Pnt R))
    (h : AtMostOnePerKind attrs) :
    Aggregates u attrs (validationProperties u attrs) := by
  rw [validationProperties_eq_noBreak u attrs h]
  unfold validationPropertiesNoBreak
  obtain ⟨f1, f2, f3⟩ := validation_foldl_flags u attrs ValidationProperties.zero
  obtain ⟨k1, k2, k3⟩ := validation_foldl_keep u attrs ValidationProperties.zero
  obtain ⟨v1, v2, v3⟩ := validation_foldl_value u attrs ValidationProperties.zero
  have z1 : (ValidationProperties.zero : ValidationProperties Pnt R).hasCentroid = false := rfl
  have z2 : (ValidationProperties.zero : ValidationProperties Pnt R).hasArea = false := rfl
  have z3 : (ValidationProperties.zero : ValidationProperties Pnt R).hasVolume = false := rfl
  have w1 : (ValidationProperties.zero : ValidationProperties Pnt R).centroid = default := rfl
  have w2 : (ValidationProperties.zero : ValidationProperties Pnt R).area = 0 := rfl
  have w3 : (ValidationProperties.zero : ValidationProperties Pnt R).volume = 0 := rfl
  rw [z1, Bool.false_or] at f1
  rw [z2, Bool.false_or] at f2
  rw [z3, Bool.false_or] at f3
  rw [w1] at k1
  rw [w2] at k2
  rw [w3] at k3
  refine ⟨⟨?_, ?_, ?_⟩, ⟨v1 h.1, v2 h.2.1, v3 h.2.2⟩, ⟨?_, ?_, ?_⟩⟩
  · rw [f1]; exact any_isCentroid_iff attrs
  · rw [f2]; exact any_isArea_iff attrs
  · rw [f3]; exact any_isVolume_iff attrs
  · intro hf; rw [f1] at hf; exact k1 (countP_zero_of_any_false _ _ hf)
  · intro hf; rw [f2] at hf; exact k2 (countP_zero_of_any_false _ _ hf)
  · intro hf; rw [f3] at hf; exact k3 (countP_zero_of_any_false _ _ hf)

theorem aggregates_unique (l1 l2 : List (TDF_Attribute Pnt R))
    (r1 r2 : ValidationProperties Pnt R) (hp : l1.Perm l2)
    (h1 : Aggregates u l1 r1) (h2 : Aggregates u l2 r2) : r1 = r2 := by
  obtain ⟨⟨a1, a2, a3⟩, ⟨b1, b2, b3⟩, ⟨c1, c2, c3⟩⟩ := h1
  obtain ⟨⟨x1, x2, x3⟩, ⟨y1, y2, y3⟩, ⟨z1, z2, z3⟩⟩ := h2
  have e1 : r1.hasCentroid = r2.hasCentroid := by
    rw [Bool.eq_iff_iff, a1, x1]
    exact exists_congr (fun c => hp.mem_iff)
  have e2 : r1.hasArea = r2.hasArea := by
    rw [Bool.eq_iff_iff, a2, x2]
    exact exists_congr (fun c => hp.mem_iff)
  have e3 : r1.hasVolume = r2.hasVolume := by
    rw [Bool.eq_iff_iff, a3, x3]
    exact exists_congr (fun c => hp.mem_iff)
  refine ValidationProperties.ext e1 e2 e3 ?_ ?_ ?_
  · cases hc : r1.hasCentroid with
    | false => rw [c1 hc, z1 (e1 ▸ hc)]
    | true =>
      obtain ⟨c, hmem⟩ := a1.1 hc
      rw [b1 c hmem, y1 c (hp.mem_iff.1 hmem)]
  · cases hc : r1.hasArea with
    | false => rw [c2 hc, z2 (e2 ▸ hc)]
    | true =>
      obtain ⟨c, hmem⟩ := a2.1 hc
      rw [b2 c hmem, y2 c (hp.mem_iff.1 hmem)]
  · cases hc : r1.hasVolume with
    | false => rw [c3 hc, z3 (e3 ▸ hc)]
    | true =>
      obtain ⟨c, hmem⟩ := a3.1 hc
      rw [b3 c hmem, y3 c (hp.mem_iff.1 hmem)]

/-- C4: for a label whose attribute sequence holds at most one attribute of each of the
kinds centroid, area and volume, `validationProperties` has `hasCentroid`, `hasArea`,
`hasVolume` true exactly when an attribute of the kind is in the sequence, `centroid`
is that attribute's value, `area` its value times the square-millimetre unit and
`volume` its value times the cubic-millimetre unit, and an absent kind keeps the
value-initialised field; the early exit does not change the result (it is the result of
the loop that visits every attribute), and the result is the same for every reordering
of the attributes. -/
theorem validationProperties_aggregates (attrs : List (TDF_Attribute Pnt R))
    (h : AtMostOnePerKind attrs) :
    Aggregates u attrs (validationProperties u attrs) ∧
    validationProperties u attrs = validationPropertiesNoBreak u attrs ∧
    ∀ attrs2 : List (TDF_Attribute Pnt R), attrs2.Perm attrs →
      validationProperties u attrs2 = validationProperties u attrs := by
  refine ⟨validationProperties_agg u attrs h, validationProperties_eq_noBreak u attrs h, ?_⟩
  intro attrs2 hp
  exact aggregates_unique u attrs2 attrs _ _ hp
    (validationProperties_agg u attrs2 (atMostOnePerKind_perm attrs2 attrs hp h))
    (validationProperties_agg u attrs h)

end aggregate

/-- C4, on a sample attribute sequence with one attribute of each kind among others. -/
theorem validationProperties_aggregates_sample :
    AtMostOnePerKind sampleAttributes ∧
    (Aggregates sampleUnits sampleAttributes
      (validationProperties sampleUnits sampleAttributes) ∧
    validationProperties sampleUnits sampleAttributes
      = validationPropertiesNoBreak sampleUnits sampleAttributes ∧
    ∀ attrs2 : List (TDF_Attribute (Int × Int × Int) Int), attrs2.Perm sampleAttributes →
      validationProperties sampleUnits attrs2
        = validationProperties sampleUnits sampleAttributes) :=
  ⟨⟨by decide, by decide, by decide⟩,
    validationProperties_aggregates sampleUnits sampleAttributes
      ⟨by decide, by decide, by decide⟩⟩

section colour
variable {Color : Type} [Inhabited Color]

/-- C5: `hasShapeColor(L)` is true exactly when the generic, the surface or the curve
colour is set on `L`; and when `GetColor` succeeds for a colour type exactly when
`IsSet` holds for it, `shapeColor(L)` is the generic colour if it is set, otherwise the
surface colour if it is set, otherwise the curve colour if it is set, so
`hasShapeColor(L)` holds exactly when `shapeColor(L)` is a colour stored on `L` under a
type that is set, and when none is set `shapeColor(L)` is the default constructed
colour. -/
theorem shapeColor_lookup (m_colorTool : ColorTool Color) (lbl : TDF_Label)
    (h : ∀ ty, (m_colorTool.GetColor lbl ty).isSome = m_colorTool.IsSet lbl ty) :
    (hasShapeColor m_colorTool lbl = true ↔
      (m_colorTool.IsSet lbl .XCAFDoc_ColorGen = true ∨
       m_colorTool.IsSet lbl .XCAFDoc_ColorSurf = true ∨
       m_colorTool.IsSet lbl .XCAFDoc_ColorCurv = true)) ∧
    (∀ c, m_colorTool.GetColor lbl .XCAFDoc_ColorGen = some c →
      shapeColor m_colorTool lbl = c) ∧
    (m_colorTool.IsSet lbl .XCAFDoc_ColorGen = false →
      ∀ c, m_colorTool.GetColor lbl .XCAFDoc_ColorSurf = some c →
        shapeColor m_colorTool lbl = c) ∧
    (m_colorTool.IsSet lbl .XCAFDoc_ColorGen = false →
      m_colorTool.IsSet lbl .XCAFDoc_ColorSurf = false →
      ∀ c, m_colorTool.GetColor lbl .XCAFDoc_ColorCurv = some c →
        shapeColor m_colorTool lbl = c) ∧
    (hasShapeColor m_colorTool lbl = true ↔
      ∃ ty, m_colorTool.IsSet lbl ty = true ∧
        m_colorTool.GetColor lbl ty = some (shapeColor m_colorTool lbl)) ∧
    (hasShapeColor m_colorTool lbl = false → shapeColor m_colorTool lbl = default) := by
  have hg := h .XCAFDoc_ColorGen
  have hs := h .XCAFDoc_ColorSurf
  have hc := h .XCAFDoc_ColorCurv
  refine ⟨by simp [hasShapeColor, or_assoc], ?_, ?_, ?_, ?_, ?_⟩
  · intro c e
    simp [shapeColor, e]
  · intro n1 c e
    rw [n1] at hg
    cases eg : m_colorTool.GetColor lbl .XCAFDoc_ColorGen with
    | some x => simp [eg] at hg
    | none => simp [shapeColor, eg, e]
  · intro n1 n2 c e
    rw [n1] at hg
    rw [n2] at hs
    cases eg : m_colorTool.GetColor lbl .XCAFDoc_ColorGen with
    | some x => simp [eg] at hg
    | none =>
      cases es : m_colorTool.GetColor lbl .XCAFDoc_ColorSurf with
      | some x => simp [es] at hs
      | none => simp [shapeColor, eg, es, e]
  · constructor
    · intro hh
      cases eg : m_colorTool.GetColor lbl .XCAFDoc_ColorGen with
      | some x =>
        exact ⟨.XCAFDoc_ColorGen, by rw [← hg, eg]; rfl, by simp [shapeColor, eg]⟩
      | none =>
        cases es : m_colorTool.GetColor lbl .XCAFDoc_ColorSurf with
        | some x =>
          exact ⟨.XCAFDoc_ColorSurf, by rw [← hs, es]; rfl, by simp [shapeColor, eg, es]⟩
        | none =>
          cases ec : m_colorTool.GetColor lbl .XCAFDoc_ColorCurv with
          | some x =>
            exact ⟨.XCAFDoc_ColorCurv, by rw [← hc, ec]; rfl,
              by simp [shapeColor, eg, es, ec]⟩
          | none =>
            rw [eg] at hg
            rw [es] at hs
            rw [ec] at hc
            simp [hasShapeColor, ← hg, ← hs, ← hc] at hh
    · rintro ⟨ty, hset, _⟩
      cases ty <;> simp [hasShapeColor, hset]
  · intro hh
    simp only [hasShapeColor, Bool.or_eq_false_iff] at hh
    obtain ⟨⟨n1, n2⟩, n3⟩ := hh
    rw [n1] at hg
    rw [n2] at hs
    rw [n3] at hc
    cases eg : m_colorTool.GetColor lbl .XCAFDoc_ColorGen with
    | some x => simp [eg] at hg
    | none =>
      cases es : m_colorTool.GetColor lbl .XCAFDoc_ColorSurf with
      | some x => simp [es] at hs
      | none =>
        cases ec : m_colorTool.GetColor lbl .XCAFDoc_ColorCurv with
        | some x => simp [ec] at hc
        | none => simp [shapeColor, eg, es, ec]

end colour

theorem sampleColorTool_consistent (lbl : TDF_Label) (ty : XCAFDoc_ColorType) :
    (sampleColorTool.GetColor lbl ty).isSome = sampleColorTool.IsSet lbl ty := by
  simp only [sampleColorTool]
  cases ty <;> simp <;> split <;> simp_all

/-- C5, on the sample colour tool: the label 1 has no generic colour but a surface
colour 7, which `shapeColor` returns. -/
theorem shapeColor_lookup_sample :
    (∀ ty, (sampleColorTool.GetColor 1 ty).isSome = sampleColorTool.IsSet 1 ty) ∧
    shapeColor sampleColorTool 1 = 7 :=
  ⟨sampleColorTool_consistent 1,
    (shapeColor_lookup sampleColorTool 1 (sampleColorTool_consistent 1)).2.2.1 rfl 7 rfl⟩


theorem arg_plain_centroid : QString.arg "%1" (tr "Centroid") = "Centroid" := by decide
theorem arg_plain_area : QString.arg "%1" (tr "Area") = "Area" := by decide
theorem arg_plain_volume : QString.arg "%1" (tr "Volume") = "Volume" := by decide
theorem arg_referred_centroid :
    QString.arg (tr "[Referred]%1") (tr "Centroid") = "[Referred]Centroid" := by decide
theorem arg_referred_area :
    QString.arg (tr "[Referred]%1") (tr "Area") = "[Referred]Area" := by decide
theorem arg_referred_volume :
    QString.arg (tr "[Referred]%1") (tr "Volume") = "[Referred]Volume" := by decide

section propertiesProofs
variable {Pnt R Loc Trsf Color : Type}

theorem addValidationProperties_plain (vp : ValidationProperties Pnt R)
    (vec : List (HandleProperty Pnt R Trsf Color)) :
    (addValidationProperties vp vec "%1").map (fun prop => prop.setUserReadOnly true)
      = vec.map (fun prop => prop.setUserReadOnly true) ++ validationPropertyList "" vp := by
  simp only [addValidationProperties, validationPropertyList, arg_plain_centroid,
    arg_plain_area, arg_plain_volume]
  cases vp.hasCentroid <;> cases vp.hasArea <;> cases vp.hasVolume <;>
    simp [HandleProperty.setUserReadOnly]

theorem addValidationProperties_referred (vp : ValidationProperties Pnt R)
    (vec : List (HandleProperty Pnt R Trsf Color)) :
    (addValidationProperties vp vec (tr "[Referred]%1")).map
        (fun prop => prop.setUserReadOnly true)
      = vec.map (fun prop => prop.setUserReadOnly true)
        ++ validationPropertyList "[Referred]" vp := by
  simp only [addValidationProperties, validationPropertyList, arg_referred_centroid,
    arg_referred_area, arg_referred_volume]
  cases vp.hasCentroid <;> cases vp.hasArea <;> cases vp.hasVolume <;>
    simp [HandleProperty.setUserReadOnly]

theorem listXdeShapeKind_join (doc : XdeDocument Pnt R Loc Trsf Color) (label : TDF_Label) :
    QStringList.join (listXdeShapeKind doc label) "+" = xdeShapeKindText doc label := by
  simp only [QStringList.join, listXdeShapeKind, xdeShapeKindText, tr]
  cases doc.m_shapeTool.isShapeAssembly label <;>
  cases doc.m_shapeTool.isShapeReference label <;>
  cases doc.isShapeComponent label <;>
  cases doc.isShapeCompound label <;>
  cases doc.m_shapeTool.isShapeSimple label <;>
  cases doc.isShapeSub label <;> rfl

theorem validationPropertyList_readOnly (pre : QString) (vp : ValidationProperties Pnt R) :
    ∀ p ∈ (validationPropertyList pre vp : List (HandleProperty Pnt R Trsf Color)),
      p.userReadOnly = true := by
  intro p hp
  simp only [validationPropertyList, List.mem_append] at hp
  rcases hp with (hp | hp) | hp <;> split at hp <;> simp at hp <;> subst hp <;> rfl

end propertiesProofs

section propertiesMain
variable {Pnt R Loc Trsf Color : Type} [Inhabited Pnt] [Zero R] [Mul R] [Inhabited Color]

/-- The list `shapeProperties` returns: the own properties, followed by the properties
of the referred shape when the label is a reference and merging was asked for. -/
theorem shapeProperties_eq (doc : XdeDocument Pnt R Loc Trsf Color) (label : TDF_Label)
    (opt : ShapePropertiesOption) :
    shapeProperties doc label opt = ownPropertyList doc label ++
      (if doc.m_shapeTool.isShapeReference label = true
          ∧ opt = ShapePropertiesOption.MergeReferred
        then referredPropertyList doc label else []) := by
  have own : ∀ vec5 : List (HandleProperty Pnt R Trsf Color),
      vec5 = (if hasShapeColor doc.m_colorTool label then
          addValidationProperties (validationProperties doc.units (doc.attributes label))
            (if doc.m_shapeTool.isShapeReference label then
              [⟨tr "Shape", .QString (doc.shapeTypeText (doc.shapeType label)), false⟩,
               ⟨tr "XDE shape",
                 .QString (QStringList.join (listXdeShapeKind doc label) "+"), false⟩] ++
              [⟨tr "Location", .OccTrsf (doc.Transformation (doc.GetLocation label)), false⟩]
            else
              [⟨tr "Shape", .QString (doc.shapeTypeText (doc.shapeType label)), false⟩,
               ⟨tr "XDE shape",
                 .QString (QStringList.join (listXdeShapeKind doc label) "+"), false⟩]) "%1"
            ++ [⟨tr "Color", .OccColor (shapeColor doc.m_colorTool label), false⟩]
        else
          addValidationProperties (validationProperties doc.units (doc.attributes label))
            (if doc.m_shapeTool.isShapeReference label then
              [⟨tr "Shape", .QString (doc.shapeTypeText (doc.shapeType label)), false⟩,
               ⟨tr "XDE shape",
                 .QString (QStringList.join (listXdeShapeKind doc label) "+"), false⟩] ++
              [⟨tr "Location", .OccTrsf (doc.Transformation (doc.GetLocation label)), false⟩]
            else
              [⟨tr "Shape", .QString (doc.shapeTypeText (doc.shapeType label)), false⟩,
               ⟨tr "XDE shape",
                 .QString (QStringList.join (listXdeShapeKind doc label) "+"), false⟩]) "%1") →
      vec5.map (fun prop => prop.setUserReadOnly true) = ownPropertyList doc label := by
    intro vec5 h
    subst h
    unfold ownPropertyList
    rw [← listXdeShapeKind_join]
    cases doc.m_shapeTool.isShapeReference label <;>
      cases hasShapeColor doc.m_colorTool label <;>
      simp only [Bool.false_eq_true, if_false, if_true, List.map_append,
        addValidationProperties_plain] <;>
      simp [HandleProperty.setUserReadOnly, tr]
  unfold shapeProperties
  simp only [List.nil_append, List.cons_append]
  by_cases hr : doc.m_shapeTool.isShapeReference label = true
  · cases opt with
    | None =>
      simp only [hr, reduceCtorEq, decide_False, Bool.and_false, Bool.false_eq_true, if_false,
        and_false, List.append_nil]
      exact own _ (by simp [hr])
    | MergeReferred =>
      simp only [hr, decide_True, Bool.and_true, if_true, and_self]
      unfold referredPropertyList
      cases hasShapeColor doc.m_colorTool (doc.m_shapeTool.shapeReferred label)
      · simp only [Bool.false_eq_true, if_false, List.append_nil]
        rw [addValidationProperties_referred]
        congr 1
        exact own _ (by simp [hr])
      · simp only [if_true, List.map_append]
        rw [addValidationProperties_referred, List.append_assoc]
        congr 1
        exact own _ (by simp [hr])
  · simp only [hr, Bool.false_and, Bool.false_eq_true, if_false, false_and, List.append_nil]
    exact own _ (by simp [hr])

end propertiesMain

section propertiesClaims
variable {Pnt R Loc Trsf Color : Type} [Inhabited Pnt] [Zero R] [Mul R] [Inhabited Color]

theorem ownPropertyList_readOnly (doc : XdeDocument Pnt R Loc Trsf Color)
    (label : TDF_Label) : ∀ p ∈ ownPropertyList doc label, p.userReadOnly = true := by
  intro p hp
  simp only [ownPropertyList, List.mem_append, List.mem_cons, List.mem_singleton,
    List.not_mem_nil, or_false] at hp
  rcases hp with (((hp | hp) | hp) | hp) | hp
  · subst hp; rfl
  · subst hp; rfl
  · split at hp <;> simp at hp
    subst hp; rfl
  · exact validationPropertyList_readOnly _ _ p hp
  · split at hp <;> simp at hp
    subst hp; rfl

theorem referredPropertyList_readOnly (doc : XdeDocument Pnt R Loc Trsf Color)
    (label : TDF_Label) : ∀ p ∈ referredPropertyList doc label, p.userReadOnly = true := by
  intro p hp
  simp only [referredPropertyList, List.mem_append] at hp
  rcases hp with hp | hp
  · exact validationPropertyList_readOnly _ _ p hp
  · split at hp <;> simp at hp
    subst hp; rfl

/-- C7: without merging, `shapeProperties(L)` is, in this order: the "Shape" property;
the "XDE shape" property, whose value joins by `+` those of Assembly, Reference,
Component, Compound, Simple, Sub whose predicate holds on `L`; a "Location" property
holding the transformation of the reference location exactly when `L` is a reference;
"Centroid", "Area", "Volume" for exactly the validation properties that
`validationProperties(L)` reports as present; "Color" holding `shapeColor(L)` exactly
when `hasShapeColor(L)`. Under either option every property of the list is
read-only. -/
theorem shapeProperties_own_layout (doc : XdeDocument Pnt R Loc Trsf Color)
    (label : TDF_Label) :
    shapeProperties doc label ShapePropertiesOption.None =
      [⟨"Shape", .QString (doc.shapeTypeText (doc.shapeType label)), true⟩,
       ⟨"XDE shape", .QString (xdeShapeKindText doc label), true⟩] ++
      (if doc.m_shapeTool.isShapeReference label then
        [⟨"Location", .OccTrsf (doc.Transformation (doc.GetLocation label)), true⟩]
       else []) ++
      (if (validationProperties doc.units (doc.attributes label)).hasCentroid then
        [⟨"Centroid",
          .OccPnt (validationProperties doc.units (doc.attributes label)).centroid, true⟩]
       else []) ++
      (if (validationProperties doc.units (doc.attributes label)).hasArea then
        [⟨"Area", .Area (validationProperties doc.units (doc.attributes label)).area, true⟩]
       else []) ++
      (if (validationProperties doc.units (doc.attributes label)).hasVolume then
        [⟨"Volume",
          .Volume (validationProperties doc.units (doc.attributes label)).volume, true⟩]
       else []) ++
      (if hasShapeColor doc.m_colorTool label then
        [⟨"Color", .OccColor (shapeColor doc.m_colorTool label), true⟩] else []) ∧
    ∀ opt, ∀ p ∈ shapeProperties doc label opt, p.userReadOnly = true := by
  constructor
  · rw [shapeProperties_eq]
    simp [ownPropertyList, validationPropertyList]
  · intro opt p hp
    rw [shapeProperties_eq, List.mem_append] at hp
    rcases hp with hp | hp
    · exact ownPropertyList_readOnly doc label p hp
    · split at hp
      · exact referredPropertyList_readOnly doc label p hp
      · simp at hp

/-- C2: the list `shapeProperties(L)` returns with the option `MergeReferred` starts
with the list it returns without merging, so merging only adds at the end. When `L` is a
reference the added properties are the validation properties of `shapeReferred(L)`
(those present among centroid, area, volume, in that order) under the names
"[Referred]Centroid", "[Referred]Area", "[Referred]Volume", followed by a
"[Referred]Color" property exactly when `hasShapeColor(shapeReferred(L))`; when `L` is
not a reference nothing is added and both options return the same list. -/
theorem shapeProperties_merge_referred (doc : XdeDocument Pnt R Loc Trsf Color)
    (label : TDF_Label) :
    shapeProperties doc label ShapePropertiesOption.None
      <+: shapeProperties doc label ShapePropertiesOption.MergeReferred ∧
    shapeProperties doc label ShapePropertiesOption.MergeReferred =
      shapeProperties doc label ShapePropertiesOption.None ++
      (if doc.m_shapeTool.isShapeReference label then
        (if (validationProperties doc.units
              (doc.attributes (doc.m_shapeTool.shapeReferred label))).hasCentroid then
          [⟨"[Referred]Centroid",
            .OccPnt (validationProperties doc.units
              (doc.attributes (doc.m_shapeTool.shapeReferred label))).centroid, true⟩]
         else []) ++
        (if (validationProperties doc.units
              (doc.attributes (doc.m_shapeTool.shapeReferred label))).hasArea then
          [⟨"[Referred]Area",
            .Area (validationProperties doc.units
              (doc.attributes (doc.m_shapeTool.shapeReferred label))).area, true⟩]
         else []) ++
        (if (validationProperties doc.units
              (doc.attributes (doc.m_shapeTool.shapeReferred label))).hasVolume then
          [⟨"[Referred]Volume",
            .Volume (validationProperties doc.units
              (doc.attributes (doc.m_shapeTool.shapeReferred label))).volume, true⟩]
         else []) ++
        (if hasShapeColor doc.m_colorTool (doc.m_shapeTool.shapeReferred label) then
          [⟨"[Referred]Color",
            .OccColor (shapeColor doc.m_colorTool (doc.m_shapeTool.shapeReferred label)),
            true⟩]
         else [])
       else []) := by
  have e : shapeProperties doc label ShapePropertiesOption.MergeReferred =
      shapeProperties doc label ShapePropertiesOption.None ++
      (if doc.m_shapeTool.isShapeReference label then referredPropertyList doc label
       else []) := by
    rw [shapeProperties_eq, shapeProperties_eq]
    simp
  refine ⟨⟨_, e.symm⟩, ?_⟩
  rw [e]
  simp [referredPropertyList, validationPropertyList]

end propertiesClaims

section labelName
variable {Pnt R Loc Trsf Color : Type}

theorem arg_shape_word (w : TopAbs_ShapeEnum) (tag : QString) :
    QString.arg (QString.arg "%1 %2" (shapeTypeWord w)) tag
      = shapeTypeWord w ++ " " ++ tag := by
  apply String.ext
  cases w <;>
    simp [QString.arg, lowestMarker, markerAt, markerOf, optMin, replaceMarker,
      shapeTypeWord, String.data_append]

theorem arg_brackets (x : QString) : QString.arg "[[%1]]" x = "[[" ++ x ++ "]]" := by
  apply String.ext
  simp [QString.arg, lowestMarker, markerAt, markerOf, optMin, replaceMarker,
    String.data_append]

theorem findLabelName_word (doc : XdeDocument Pnt R Loc Trsf Color) (lbl : TDF_Label) :
    (match doc.shapeType lbl with
        | .TopAbs_COMPOUND => ("Compound" : QString)
        | .TopAbs_COMPSOLID => "CompSolid"
        | .TopAbs_SOLID => "Solid"
        | .TopAbs_SHELL => "Shell"
        | .TopAbs_FACE => "Face"
        | .TopAbs_WIRE => "Wire"
        | .TopAbs_EDGE => "Edge"
        | .TopAbs_VERTEX => "Vertex"
        | .TopAbs_SHAPE => "Shape") = shapeTypeWord (doc.shapeType lbl) := by
  cases doc.shapeType lbl <;> rfl

theorem append_ne_empty_left (a b : String) (h : a ≠ "") : a ++ b ≠ "" := by
  intro e
  apply h
  have := congrArg String.data e
  rw [String.data_append] at this
  apply String.ext
  simp only [List.append_eq_nil] at this
  exact this.1

/-- C10: `findLabelName(L)` is the standard name of the label if that is not empty;
otherwise, if `L` is a shape, the word of the shape type (Compound, CompSolid, Solid,
Shell, Face, Wire, Edge, Vertex or Shape), one space and the tag number of the label;
otherwise the tag path of the label between "[[" and "]]". In all three cases the name
is not empty. -/
theorem findLabelName_cases (doc : XdeDocument Pnt R Loc Trsf Color) (lbl : TDF_Label) :
    findLabelName doc lbl =
      (if doc.labelAttrStdName lbl ≠ "" then doc.labelAttrStdName lbl
       else if doc.isShape lbl then
        shapeTypeWord (doc.shapeType lbl) ++ " " ++ toString (doc.Tag lbl)
       else "[[" ++ doc.labelTag lbl ++ "]]") ∧
    shapeTypeWord (doc.shapeType lbl) ∈
      ["Compound", "CompSolid", "Solid", "Shell", "Face", "Wire", "Edge", "Vertex", "Shape"] ∧
    findLabelName doc lbl ≠ "" := by
  have hw : shapeTypeWord (doc.shapeType lbl) ∈
      ["Compound", "CompSolid", "Solid", "Shell", "Face", "Wire", "Edge", "Vertex",
        "Shape"] := by
    cases doc.shapeType lbl <;> simp [shapeTypeWord]
  have e : findLabelName doc lbl =
      (if doc.labelAttrStdName lbl ≠ "" then doc.labelAttrStdName lbl
       else if doc.isShape lbl then
        shapeTypeWord (doc.shapeType lbl) ++ " " ++ toString (doc.Tag lbl)
       else "[[" ++ doc.labelTag lbl ++ "]]") := by
    unfold findLabelName
    simp only [findLabelName_word, QString.argInt, arg_shape_word, arg_brackets]
    by_cases hn : doc.labelAttrStdName lbl = ""
    · have : (doc.labelAttrStdName lbl).isEmpty = true := (String.isEmpty_iff _).2 hn
      rw [if_pos this, if_neg (not_not.2 hn)]
    · have : ¬ (doc.labelAttrStdName lbl).isEmpty = true :=
        fun h => hn ((String.isEmpty_iff _).1 h)
      rw [if_neg this, if_pos hn]
  refine ⟨e, hw, ?_⟩
  rw [e]
  split
  · assumption
  · split
    · rw [String.append_assoc]
      apply append_ne_empty_left
      cases doc.shapeType lbl <;> decide
    · rw [String.append_assoc]
      exact append_ne_empty_left _ _ (by decide)

end labelName

theorem foldl_append_singleton {α β : Type} (f : β → α) (l : List β) :
    ∀ init : List α, l.foldl (fun acc b => acc ++ [f b]) init = init ++ l.map f := by
  induction l with
  | nil => intro init; simp
  | cons b l ih => intro init; simp [ih]

theorem rooted_acyclic : Acyclic (walkedChildren rootedShapeTool) := by
  apply acyclic_of_rank _ rootedRank
  intro l c h
  simp only [walkedChildren, rootedShapeTool] at h
  split_ifs at h <;> simp at h <;> rename_i hl <;> (try rcases hl with rfl | rfl) <;>
    (try rcases h with rfl | rfl) <;> simp_all [rootedRank, sampleRank]

section rootAssembly
variable {Loc : Type} [One Loc]

/-- C6: `createRootAssembly` tells its outcome by the returned label. Without a free
shape it returns the null label and leaves the document and the tree as they are; with
one free shape it returns the label of that shape and leaves the document and the tree
as they are; with two or more it makes one new shape, adds every former free shape to it
as a component with the identity location, in their order, updates the assemblies,
rebuilds the tree on the document so changed and returns the label of the new shape;
the rebuild, and with it the call, returns when the changed document is acyclic. -/
theorem createRootAssembly_outcome (m_shapeTool : ShapeToolModel Loc)
    (self : XdeDocumentItem Loc) :
    ((m_shapeTool.view self.m_cafDoc).topLevelFreeShapes = [] →
      ∀ fuel, createRootAssembly m_shapeTool fuel self = some (nullLabel, self)) ∧
    (∀ shapeLabel, (m_shapeTool.view self.m_cafDoc).topLevelFreeShapes = [shapeLabel] →
      ∀ fuel, createRootAssembly m_shapeTool fuel self = some (shapeLabel, self)) ∧
    (2 ≤ (m_shapeTool.view self.m_cafDoc).topLevelFreeShapes.length →
      (∀ fuel, createRootAssembly m_shapeTool fuel self =
        (rebuildAssemblyTree (m_shapeTool.view (self.m_cafDoc ++
          rootAssemblyCalls (m_shapeTool.newShapeLabel self.m_cafDoc)
            (m_shapeTool.view self.m_cafDoc).topLevelFreeShapes)) fuel self.m_asmTree).map
          (fun tree => (m_shapeTool.newShapeLabel self.m_cafDoc,
            ⟨self.m_cafDoc ++ rootAssemblyCalls (m_shapeTool.newShapeLabel self.m_cafDoc)
              (m_shapeTool.view self.m_cafDoc).topLevelFreeShapes, tree⟩))) ∧
      (Acyclic (walkedChildren (m_shapeTool.view (self.m_cafDoc ++
        rootAssemblyCalls (m_shapeTool.newShapeLabel self.m_cafDoc)
          (m_shapeTool.view self.m_cafDoc).topLevelFreeShapes))) →
      ∃ n : Nat, ∀ fuel, n ≤ fuel → ∃ tree : Tree,
        createRootAssembly m_shapeTool fuel self =
          some (m_shapeTool.newShapeLabel self.m_cafDoc,
            ⟨self.m_cafDoc ++ rootAssemblyCalls (m_shapeTool.newShapeLabel self.m_cafDoc)
              (m_shapeTool.view self.m_cafDoc).topLevelFreeShapes, tree⟩) ∧
        rebuildAssemblyTree (m_shapeTool.view (self.m_cafDoc ++
          rootAssemblyCalls (m_shapeTool.newShapeLabel self.m_cafDoc)
            (m_shapeTool.view self.m_cafDoc).topLevelFreeShapes)) fuel ⟨[]⟩
          = some tree)) := by
  refine ⟨?_, ?_, ?_⟩
  · intro h fuel
    simp [createRootAssembly, h]
  · intro shapeLabel h fuel
    simp [createRootAssembly, h]
  · intro h
    have hcalls : (self.m_cafDoc ++ [ShapeToolCall.NewShape] ++
        List.map (fun shapeLabel => ShapeToolCall.AddComponent
          (m_shapeTool.newShapeLabel self.m_cafDoc) shapeLabel 1)
          (m_shapeTool.view self.m_cafDoc).topLevelFreeShapes ++
        [ShapeToolCall.UpdateAssemblies]) =
        self.m_cafDoc ++ rootAssemblyCalls (m_shapeTool.newShapeLabel self.m_cafDoc)
          (m_shapeTool.view self.m_cafDoc).topLevelFreeShapes := by
      simp [rootAssemblyCalls]
    have hrun : ∀ fuel, createRootAssembly m_shapeTool fuel self =
        (rebuildAssemblyTree (m_shapeTool.view (self.m_cafDoc ++
          rootAssemblyCalls (m_shapeTool.newShapeLabel self.m_cafDoc)
            (m_shapeTool.view self.m_cafDoc).topLevelFreeShapes)) fuel self.m_asmTree).map
          (fun tree => (m_shapeTool.newShapeLabel self.m_cafDoc,
            ⟨self.m_cafDoc ++ rootAssemblyCalls (m_shapeTool.newShapeLabel self.m_cafDoc)
              (m_shapeTool.view self.m_cafDoc).topLevelFreeShapes, tree⟩)) := by
      intro fuel
      simp only [createRootAssembly, gt_iff_lt, foldl_append_singleton]
      rw [if_pos (by omega), hcalls]
      cases rebuildAssemblyTree (m_shapeTool.view (self.m_cafDoc ++
          rootAssemblyCalls (m_shapeTool.newShapeLabel self.m_cafDoc)
            (m_shapeTool.view self.m_cafDoc).topLevelFreeShapes)) fuel self.m_asmTree <;> rfl
    refine ⟨hrun, fun hwf => ?_⟩
    obtain ⟨n, hn⟩ := rebuild_returns _ hwf
    refine ⟨n, fun fuel hf => ?_⟩
    obtain ⟨tree, ht⟩ := hn fuel hf
    refine ⟨tree, ?_, ht _⟩
    rw [hrun fuel, ht self.m_asmTree]
    rfl

end rootAssembly

/-- C6, on sample documents: a document without shapes, the rooted sample document with
its one free shape 8, and the sample document, whose two free shapes 1 and 2 are put
below the new assembly 8. -/
theorem createRootAssembly_outcome_sample :
    (∀ fuel, createRootAssembly emptyModel fuel ⟨[], ⟨[]⟩⟩ = some (nullLabel, ⟨[], ⟨[]⟩⟩)) ∧
    (∀ fuel, createRootAssembly sampleModel fuel ⟨[ShapeToolCall.UpdateAssemblies], ⟨[]⟩⟩
      = some (8, ⟨[ShapeToolCall.UpdateAssemblies], ⟨[]⟩⟩)) ∧
    (∃ n : Nat, ∀ fuel, n ≤ fuel → ∃ tree : Tree,
      createRootAssembly sampleModel fuel ⟨[], sampleTree⟩ =
        some (8, ⟨[ShapeToolCall.NewShape, ShapeToolCall.AddComponent 8 1 1,
          ShapeToolCall.AddComponent 8 2 1, ShapeToolCall.UpdateAssemblies], tree⟩) ∧
      rebuildAssemblyTree rootedShapeTool fuel ⟨[]⟩ = some tree) :=
  ⟨(createRootAssembly_outcome emptyModel ⟨[], ⟨[]⟩⟩).1 rfl,
    (createRootAssembly_outcome sampleModel ⟨[ShapeToolCall.UpdateAssemblies], ⟨[]⟩⟩).2.1
      8 rfl,
    ((createRootAssembly_outcome sampleModel ⟨[], sampleTree⟩).2.2 (by decide)).2
      rooted_acyclic⟩

/-- The display names of three labels of the sample document. -/
theorem sample_findLabelName :
    findLabelName sampleDocument 1 = "Gearbox" ∧
    findLabelName sampleDocument 3 = "Solid 3" ∧
    findLabelName sampleDocument 9 = "[[0:1:9]]" := by
  refine ⟨by decide, ?_, by decide⟩
  decide

/-- The merged properties of the reference 4 of the sample document. -/
theorem sample_shapeProperties :
    shapeProperties sampleDocument 4 ShapePropertiesOption.MergeReferred =
      [⟨"Shape", .QString "SOLID", true⟩,
       ⟨"XDE shape", .QString "Reference+Component", true⟩,
       ⟨"Location", .OccTrsf 4, true⟩,
       ⟨"[Referred]Centroid", .OccPnt (1, 2, 3), true⟩,
       ⟨"[Referred]Area", .Area 300, true⟩,
       ⟨"[Referred]Volume", .Volume 4000, true⟩,
       ⟨"[Referred]Color", .OccColor 5, true⟩] := by
  decide

/-- The own properties of the simple shape 3 of the sample document. -/
theorem sample_shapeProperties_own :
    shapeProperties sampleDocument 3 ShapePropertiesOption.None =
      [⟨"Shape", .QString "SOLID", true⟩,
       ⟨"XDE shape", .QString "Simple", true⟩,
       ⟨"Centroid", .OccPnt (1, 2, 3), true⟩,
       ⟨"Area", .Area 300, true⟩,
       ⟨"Volume", .Volume 4000, true⟩,
       ⟨"Color", .OccColor 5, true⟩] := by
  decide

end Mayo
